import Mathlib

/-!
Verification of the SWEGENT-BENCH issue/repository mining pipeline.

Shallow embedding of the Python sources:
- `src/repo-hook/github_archive/agent_filter.py` (keyword/star/AI repo filter)
- `src/repo-hook/github_archive/github_api.py` (request gate, GraphQL batch)
- `src/repo-hook/github/awesome_search.py`, `repo_extractor.py`, `main.py`
- `src/repo-hook/repo_merge/main.py` (result merger)
- `src/issue-hook/issue_crawler.py` (issue crawler and filter pipeline)

External effects (HTTP responses, LLM responses, README contents) are passed
in as explicit oracle parameters; the embedded functions mirror the source's
control flow on those inputs.
-/

/-! ## String helpers (model Python `in`, `startswith`, `lower`, `strip`) -/

/-- Models Python `needle` being a prefix of `hay` at the character-list level. -/
def listIsPrefixOf : List Char → List Char → Bool
  | [], _ => true
  | _ :: _, [] => false
  | a :: as, b :: bs => a == b && listIsPrefixOf as bs

/-- Models Python substring containment (`needle in hay`) on character lists. -/
def listContainsSub (needle : List Char) : List Char → Bool
  | [] => needle.isEmpty
  | c :: rest => listIsPrefixOf needle (c :: rest) || listContainsSub needle rest

/-- Python `needle in hay` for strings. -/
def strContains (hay needle : String) : Bool :=
  listContainsSub needle.data hay.data

/-- ASCII lower-casing of one character (models Python `str.lower` on the
ASCII inputs this pipeline handles). -/
def asciiLowerChar (c : Char) : Char :=
  if 'A' ≤ c && c ≤ 'Z' then Char.ofNat (c.toNat + 32) else c

/-- ASCII upper-casing of one character (models Python `str.upper`). -/
def asciiUpperChar (c : Char) : Char :=
  if 'a' ≤ c && c ≤ 'z' then Char.ofNat (c.toNat - 32) else c

/-- Python `s.lower()`. -/
def strLower (s : String) : String := ⟨s.data.map asciiLowerChar⟩

/-- Python `s.upper()`. -/
def strUpper (s : String) : String := ⟨s.data.map asciiUpperChar⟩

/-- Python `s.strip()`: drop leading and trailing whitespace. -/
def strStrip (s : String) : String :=
  ⟨((s.data.dropWhile Char.isWhitespace).reverse.dropWhile Char.isWhitespace).reverse⟩

/-- Python `s.startswith(pre)`. -/
def strStartsWith (s pre : String) : Bool := listIsPrefixOf pre.data s.data

/-- Python `s[:n]`. -/
def strTake (s : String) (n : Nat) : String := ⟨s.data.take n⟩

/-! ## C1 — classification response parsing

`agent_filter.py` `AgentRepoFilter.ai_filter` (lines 56-99) and
`issue_crawler.py` `GitHubIssueCrawler._is_agent_issue` (lines 420-459).
The LLM call is abstracted as `llmResponse : Option String`; `none` models the
`except` path (the call raised). -/

/-- Models `AgentRepoFilter.ai_filter`: with `use_ai` off it returns `True`;
on an exception it returns `False`; otherwise it strips and upper-cases the
response and accepts iff it starts with `"YES"`
(`response.strip().upper().startswith("YES")`, lines 89-95). -/
def ai_filter (use_ai : Bool) (llmResponse : Option String) : Bool :=
  if !use_ai then true
  else
    match llmResponse with
    | none => false
    | some resp => strStartsWith (strUpper (strStrip resp)) "YES"

/-- Models `GitHubIssueCrawler._is_agent_issue` (lines 446-459): on an
exception it returns `(False, "Judgment failed: ...")`; otherwise it lower-cases
the response and accepts iff `"yes"` occurs anywhere in it and `"no"` does not
occur within its first 10 characters
(`"yes" in response_lower and "no" not in response_lower[:10]`). -/
def is_agent_issue (llmResponse : Option String) : Bool × String :=
  match llmResponse with
  | none => (false, "Judgment failed")
  | some resp =>
    let rl := strLower resp
    (strContains rl "yes" && !(strContains (strTake rl 10) "no"), resp)

/-- C1 counterexample: the issue AI judgment is not a prefix check. The
response `"Maybe yes"` does not begin with `YES`/`Yes` after case
normalization, so the claim requires a rejection, yet `_is_agent_issue`
accepts it. -/
theorem ai_judgment_not_prefix_counterexample :
    (is_agent_issue (some "Maybe yes")).1 = true
    ∧ strStartsWith (strUpper (strStrip "Maybe yes")) "YES" = false := by
  constructor <;> decide

/-- C1 amended: the repository AI filter (`ai_filter`) accepts iff the
stripped, upper-cased response starts with `"YES"` and fails closed on a
failed call; the issue AI judgment (`_is_agent_issue`) instead accepts iff
the lower-cased response contains `"yes"` anywhere and does not contain
`"no"` within its first 10 characters, also failing closed on a failed call.
In particular "Yes, but..." is accepted and "No"/"Maybe"/"" are rejected by
both, while "Maybe yes" is rejected by the repository filter but accepted by
the issue judgment. -/
theorem classification_parse_amended :
    (∀ r : String, ai_filter true (some r) = strStartsWith (strUpper (strStrip r)) "YES")
    ∧ ai_filter true none = false
    ∧ (∀ r : String,
        (is_agent_issue (some r)).1
          = (strContains (strLower r) "yes" && !(strContains (strTake (strLower r) 10) "no")))
    ∧ (is_agent_issue none).1 = false
    ∧ ai_filter true (some "Yes, but the scope is narrow") = true
    ∧ ai_filter true (some "No") = false
    ∧ ai_filter true (some "Maybe") = false
    ∧ ai_filter true (some "") = false
    ∧ (is_agent_issue (some "Yes, this is an agent issue")).1 = true
    ∧ (is_agent_issue (some "No")).1 = false
    ∧ (is_agent_issue (some "Maybe")).1 = false
    ∧ (is_agent_issue (some "")).1 = false
    ∧ (is_agent_issue (some "Maybe yes")).1 = true := by
  refine ⟨fun r => rfl, rfl, fun r => rfl, rfl, ?_, ?_, ?_, ?_, ?_, ?_, ?_, ?_, ?_⟩ <;> decide

/-! ## C2 — rate-limit retry at the request gate

`github_api.py` `GitHubAPI._make_request` (lines 31-67) and
`awesome_search.py` `AwesomeRepoSearcher._make_request` (lines 27-62).
Both recurse on HTTP 403 (`return self._make_request(url)` after
`time.sleep(60)`). The sequence of outcomes of successive attempts is the
oracle `responses`; evaluation is fuel-indexed, `none` meaning the
computation has not produced a result within `fuel` attempts. -/

/-- Outcome of one HTTP attempt: a parsed JSON body, an HTTP error status,
or a transport-level error (the generic `except` branch). -/
inductive HttpOutcome where
  | ok (body : String)
  | httpErr (code : Nat)
  | netErr
deriving Repr, DecidableEq

/-- Models `GitHubAPI._make_request`, fuel-indexed: attempt `k` consumes one
unit of fuel; 404 returns `None`, 403 sleeps and retries recursively, any
other status or exception returns `None`. `none` (outer) = no result yet
after `fuel` attempts. -/
def make_request_fuel (responses : Nat → HttpOutcome) : Nat → Nat → Option (Option String)
  | _, 0 => none
  | k, fuel + 1 =>
    match responses k with
    | .ok b => some (some b)
    | .httpErr code =>
      if code = 404 then some none
      else if code = 403 then make_request_fuel responses (k + 1) fuel
      else some none
    | .netErr => some none

/-- Models `AwesomeRepoSearcher._make_request`, fuel-indexed: 403 sleeps and
retries recursively, 422 returns `None`, any other status or exception
returns `None`. -/
def awesome_make_request_fuel (responses : Nat → HttpOutcome) : Nat → Nat → Option (Option String)
  | _, 0 => none
  | k, fuel + 1 =>
    match responses k with
    | .ok b => some (some b)
    | .httpErr code =>
      if code = 403 then awesome_make_request_fuel responses (k + 1) fuel
      else if code = 422 then some none
      else some none
    | .netErr => some none

/-- C2: the request gate's 403 handling is an uncapped recursive retry, not a
single bounded retry. Under sustained throttling (every attempt answers
HTTP 403), both request gates fail to produce a result within any finite
number of attempts: request evaluation does not terminate, contradicting the
claimed at-most-one-retry bound. -/
theorem rate_limit_retry_unbounded :
    ∀ fuel k : Nat,
      make_request_fuel (fun _ => .httpErr 403) k fuel = none
      ∧ awesome_make_request_fuel (fun _ => .httpErr 403) k fuel = none := by
  intro fuel
  induction fuel with
  | zero => intro k; exact ⟨rfl, rfl⟩
  | succ n ih =>
    intro k
    constructor
    · show make_request_fuel (fun _ => .httpErr 403) (k + 1) n = _
      exact (ih (k + 1)).1
    · show awesome_make_request_fuel (fun _ => .httpErr 403) (k + 1) n = _
      exact (ih (k + 1)).2

/-! ## Issue pipeline data model (`issue_crawler.py`)

`_get_pr_info` builds PR dicts with fields number/state/title/url/merged/
base_branch; issues carry number/title/url/state/timestamps/body/labels.
The PR-evidence gathering `_get_issue_linked_prs` (git log, timeline API,
events API, search API, per-PR detail fetch) is network I/O and is abstracted
as the oracle `getLinkedPRs : Nat → Option String → List PRInfo`; the number
of times the pipeline invokes it is counted explicitly. -/

/-- A `PullRequestRecord` as built by `GitHubIssueCrawler._get_pr_info`. -/
structure PRInfo where
  number : Nat
  state : String
  title : String
  url : String
  merged : Bool
  base_branch : String
deriving Repr, DecidableEq

/-- An issue as consumed by `_process_single_issue`; `body = none` models a
JSON `null` body. -/
structure Issue where
  number : Nat
  title : String
  url : String
  state : String
  created_at : String
  closed_at : String
  body : Option String
  labels : List String
deriving Repr, DecidableEq

/-- The surviving-issue record built at the end of `_process_single_issue`. -/
structure FilteredIssue where
  number : Nat
  title : String
  url : String
  state : String
  created_at : String
  closed_at : String
  body : Option String
  labels : List String
  linked_prs : List PRInfo
deriving Repr, DecidableEq

/-- The three rejection points of `_process_single_issue`, in source order:
"No text description", "No linked PRs", "No PRs merged to main branch". -/
inductive RejectReason where
  | noDescription
  | noLinkedPRs
  | noMergeToMain
deriving Repr, DecidableEq

/-- Outcome of `_process_single_issue` for one issue: the returned dict, or
`None` together with which check rejected it. -/
inductive IssueVerdict where
  | accept (fi : FilteredIssue)
  | reject (reason : RejectReason)
deriving Repr, DecidableEq

/-- Models `GitHubIssueCrawler._check_pr_merged_to_main` (lines 389-405):
merged PRs whose base branch is `main` or `master`. -/
def check_pr_merged_to_main (pr : PRInfo) : Bool :=
  if !pr.merged then false
  else pr.base_branch == "main" || pr.base_branch == "master"

/-- Models `GitHubIssueCrawler._has_text_description` (lines 407-418):
`body is not None and len(body.strip()) > 0`. -/
def has_text_description (issue : Issue) : Bool :=
  match issue.body with
  | none => false
  | some b => decide (0 < (strStrip b).data.length)

/-- Models `GitHubIssueCrawler._process_single_issue` (lines 461-529).
The second component counts invocations of `_get_issue_linked_prs` (the only
network-touching step of this function). -/
def process_single_issue (getLinkedPRs : Nat → Option String → List PRInfo)
    (issue : Issue) : IssueVerdict × Nat :=
  if !has_text_description issue then (.reject .noDescription, 0)
  else
    let linked := getLinkedPRs issue.number issue.body
    if linked.isEmpty then (.reject .noLinkedPRs, 1)
    else
      let merged := linked.filter check_pr_merged_to_main
      if merged.isEmpty then (.reject .noMergeToMain, 1)
      else
        (.accept ⟨issue.number, issue.title, issue.url, issue.state,
                  issue.created_at, issue.closed_at, issue.body, issue.labels, merged⟩, 1)

/-- C5: for an issue whose body is missing/None or whitespace-only, the
resolver rejects with the "no description" reason and performs zero
invocations of the PR-evidence lookup: the text check strictly precedes the
linkage lookup. -/
theorem empty_body_short_circuit
    (getLinkedPRs : Nat → Option String → List PRInfo) (issue : Issue)
    (h : has_text_description issue = false) :
    process_single_issue getLinkedPRs issue = (.reject .noDescription, 0) := by
  simp [process_single_issue, h]

/-- An oracle that would report a merged-to-main linked PR for every issue,
used to witness that it is never consulted for a body-less issue. -/
def eagerPROracle : Nat → Option String → List PRInfo :=
  fun n _ => [⟨n + 1, "closed", "fix", "u", true, "main"⟩]

/-- Issue #43 with a whitespace-only body. -/
def issue43 : Issue := ⟨43, "crash", "u43", "closed", "2024", "2024", some "   ", []⟩

/-- C5 witness at a concrete whitespace-body issue and a PR-returning oracle. -/
theorem empty_body_short_circuit_witness :
    has_text_description issue43 = false
    ∧ process_single_issue eagerPROracle issue43 = (.reject .noDescription, 0) :=
  ⟨by decide, empty_body_short_circuit eagerPROracle issue43 (by decide)⟩

/-- C6: (1) an unmerged record never qualifies; (2) a merged record based on
`develop` never qualifies; (3) whenever the resolver accepts, the carried
payload is exactly the non-empty subset of fetched linked PRs that are merged
with base branch `main` or `master`; (4) when the issue has a body and linked
PRs were found but none qualifies, the verdict is the "no merge to default
branch" rejection. -/
theorem merge_to_main_policy :
    (∀ n st t u bb, check_pr_merged_to_main ⟨n, st, t, u, false, bb⟩ = false)
    ∧ (∀ n st t u, check_pr_merged_to_main ⟨n, st, t, u, true, "develop"⟩ = false)
    ∧ (∀ getLinkedPRs issue fi,
        (process_single_issue getLinkedPRs issue).1 = .accept fi →
          fi.linked_prs ≠ []
          ∧ fi.linked_prs = (getLinkedPRs issue.number issue.body).filter check_pr_merged_to_main
          ∧ ∀ pr ∈ fi.linked_prs,
              pr.merged = true ∧ (pr.base_branch = "main" ∨ pr.base_branch = "master"))
    ∧ (∀ getLinkedPRs issue,
        has_text_description issue = true →
        getLinkedPRs issue.number issue.body ≠ [] →
        (getLinkedPRs issue.number issue.body).filter check_pr_merged_to_main = [] →
        (process_single_issue getLinkedPRs issue).1 = .reject .noMergeToMain) := by
  refine ⟨fun n st t u bb => rfl, fun n st t u => rfl, ?_, ?_⟩
  · intro getLinkedPRs issue fi hacc
    unfold process_single_issue at hacc
    by_cases hbody : has_text_description issue
    · simp only [hbody, Bool.not_true, Bool.false_eq_true, if_false] at hacc
      by_cases hlink : (getLinkedPRs issue.number issue.body).isEmpty
      · simp [hlink] at hacc
      · simp only [hlink, Bool.false_eq_true, if_false] at hacc
        by_cases hmerged : ((getLinkedPRs issue.number issue.body).filter check_pr_merged_to_main).isEmpty
        · simp [hmerged] at hacc
        · simp only [hmerged, Bool.false_eq_true, if_false] at hacc
          cases hacc
          refine ⟨by simpa [List.isEmpty_iff] using hmerged, rfl, ?_⟩
          intro pr hpr
          have hq := List.of_mem_filter hpr
          unfold check_pr_merged_to_main at hq
          by_cases hm : pr.merged
          · refine ⟨hm, ?_⟩
            simp only [hm, Bool.not_true, Bool.false_eq_true, if_false] at hq
            rcases Bool.or_eq_true_iff.mp hq with h1 | h1
            · exact Or.inl (by simpa using h1)
            · exact Or.inr (by simpa using h1)
          · simp [hm] at hq
    · simp [hbody] at hacc
  · intro getLinkedPRs issue hbody hlink hfilter
    unfold process_single_issue
    simp [hbody, List.isEmpty_iff, hlink, hfilter]

/-- A merged PR whose base branch is `develop`. -/
def prDevelop : PRInfo := ⟨9, "closed", "feat", "u9", true, "develop"⟩

/-- An unmerged PR targeting `main`. -/
def prUnmergedMain : PRInfo := ⟨11, "closed", "wip", "u11", false, "main"⟩

/-- An oracle returning only non-qualifying linked PRs. -/
def developOracle : Nat → Option String → List PRInfo :=
  fun _ _ => [prDevelop, prUnmergedMain]

/-- Issue #44 with a real body. -/
def issue44 : Issue := ⟨44, "bug", "u44", "closed", "2024", "2024", some "It crashes.", []⟩

/-- C6 witness: the develop-based merged PR does not qualify, and issue #44,
whose only linked PRs are `prDevelop` and `prUnmergedMain`, is rejected with
the no-merge-to-default-branch reason. -/
theorem merge_to_main_policy_witness :
    check_pr_merged_to_main ⟨9, "closed", "feat", "u9", true, "develop"⟩ = false
    ∧ (process_single_issue developOracle issue44).1 = .reject .noMergeToMain :=
  ⟨merge_to_main_policy.2.1 9 "closed" "feat" "u9",
   merge_to_main_policy.2.2.2 developOracle issue44 (by decide) (by decide) (by decide)⟩

/-! ## C7 — survivor ordering of `filter_issues`

`GitHubIssueCrawler.filter_issues` (lines 531-581). In local-clone mode the
results are collected in `as_completed` order — modelled by an arbitrary
`completionOrder` — and then sorted by issue number
(`filtered_issues.sort(key=lambda x: x['number'])`). In API mode the issues
are processed sequentially and appended in input order, with no sort. -/

/-- The per-issue survivor extraction both modes share: keep the accepted
record of `_process_single_issue`, drop rejections. -/
def surviving_issue (getLinkedPRs : Nat → Option String → List PRInfo)
    (issue : Issue) : Option FilteredIssue :=
  match (process_single_issue getLinkedPRs issue).1 with
  | .accept fi => some fi
  | .reject _ => none

/-- Insertion step of the concluding `list.sort(key=lambda x: x['number'])`. -/
def insert_by_number (fi : FilteredIssue) : List FilteredIssue → List FilteredIssue
  | [] => [fi]
  | b :: bs => if fi.number ≤ b.number then fi :: b :: bs else b :: insert_by_number fi bs

/-- Sort by ascending issue number (models Python's stable `sort` by key). -/
def sort_by_number (l : List FilteredIssue) : List FilteredIssue :=
  l.foldr insert_by_number []

/-- Models `filter_issues` in concurrent local-clone mode: survivors are
collected in completion order and then sorted by issue number. -/
def filter_issues_concurrent (getLinkedPRs : Nat → Option String → List PRInfo)
    (completionOrder : List Issue) : List FilteredIssue :=
  sort_by_number (completionOrder.filterMap (surviving_issue getLinkedPRs))

/-- Models `filter_issues` in sequential API mode: survivors are appended in
input order and returned without sorting. -/
def filter_issues_sequential (getLinkedPRs : Nat → Option String → List PRInfo)
    (issues : List Issue) : List FilteredIssue :=
  issues.filterMap (surviving_issue getLinkedPRs)

/-- The ordering the spec asks of survivor lists. -/
def byNumber (a b : FilteredIssue) : Prop := a.number ≤ b.number

instance : DecidableRel byNumber := fun a b => Nat.decLe a.number b.number

lemma insert_by_number_nil (x : FilteredIssue) : insert_by_number x [] = [x] := rfl

lemma insert_by_number_cons (x b : FilteredIssue) (bs : List FilteredIssue) :
    insert_by_number x (b :: bs)
      = if x.number ≤ b.number then x :: b :: bs else b :: insert_by_number x bs := rfl

lemma mem_insert_by_number {x y : FilteredIssue} {l : List FilteredIssue}
    (h : y ∈ insert_by_number x l) : y = x ∨ y ∈ l := by
  induction l with
  | nil =>
    rw [insert_by_number_nil] at h
    exact Or.inl (List.mem_singleton.mp h)
  | cons b bs ih =>
    rw [insert_by_number_cons] at h
    by_cases hle : x.number ≤ b.number
    · rw [if_pos hle] at h
      rcases List.mem_cons.mp h with h1 | h1
      · exact Or.inl h1
      · exact Or.inr h1
    · rw [if_neg hle] at h
      rcases List.mem_cons.mp h with h1 | h1
      · exact Or.inr (List.mem_cons.mpr (Or.inl h1))
      · rcases ih h1 with h2 | h2
        · exact Or.inl h2
        · exact Or.inr (List.mem_cons.mpr (Or.inr h2))

lemma sorted_insert_by_number {x : FilteredIssue} {l : List FilteredIssue}
    (h : List.Sorted byNumber l) : List.Sorted byNumber (insert_by_number x l) := by
  induction l with
  | nil =>
    rw [insert_by_number_nil]
    exact List.sorted_singleton x
  | cons b bs ih =>
    rw [insert_by_number_cons]
    rcases List.sorted_cons.mp h with ⟨hb, hbs⟩
    by_cases hle : x.number ≤ b.number
    · rw [if_pos hle]
      refine List.sorted_cons.mpr ⟨?_, h⟩
      intro y hy
      rcases List.mem_cons.mp hy with hy' | hy'
      · subst hy'
        exact hle
      · exact Nat.le_trans hle (hb y hy')
    · rw [if_neg hle]
      refine List.sorted_cons.mpr ⟨?_, ih hbs⟩
      intro y hy
      rcases mem_insert_by_number hy with hy' | hy'
      · subst hy'
        exact Nat.le_of_lt (Nat.lt_of_not_le hle)
      · exact hb y hy'

lemma sorted_sort_by_number (l : List FilteredIssue) :
    List.Sorted byNumber (sort_by_number l) := by
  induction l with
  | nil => exact List.sorted_nil
  | cons a l ih => exact sorted_insert_by_number ih

lemma insert_by_number_perm (x : FilteredIssue) (l : List FilteredIssue) :
    List.Perm (insert_by_number x l) (x :: l) := by
  induction l with
  | nil =>
    rw [insert_by_number_nil]
  | cons b bs ih =>
    rw [insert_by_number_cons]
    by_cases hle : x.number ≤ b.number
    · rw [if_pos hle]
    · rw [if_neg hle]
      exact List.Perm.trans (List.Perm.cons b ih) (List.Perm.swap x b bs)

lemma sort_by_number_perm (l : List FilteredIssue) :
    List.Perm (sort_by_number l) l := by
  induction l with
  | nil => exact List.Perm.refl []
  | cons a l ih =>
    exact List.Perm.trans (insert_by_number_perm a (sort_by_number l)) (List.Perm.cons a ih)

lemma surviving_issue_number (getLinkedPRs : Nat → Option String → List PRInfo)
    (issue : Issue) (fi : FilteredIssue)
    (h : surviving_issue getLinkedPRs issue = some fi) : fi.number = issue.number := by
  unfold surviving_issue process_single_issue at h
  by_cases hbody : has_text_description issue
  · simp only [hbody, Bool.not_true, Bool.false_eq_true, if_false] at h
    by_cases hlink : (getLinkedPRs issue.number issue.body).isEmpty
    · simp [hlink] at h
    · simp only [hlink, Bool.false_eq_true, if_false] at h
      by_cases hm : ((getLinkedPRs issue.number issue.body).filter check_pr_merged_to_main).isEmpty
      · simp [hm] at h
      · simp only [hm, Bool.false_eq_true, if_false] at h
        cases h
        rfl
  · simp [hbody] at h

lemma filter_issues_sequential_numbers_sublist
    (getLinkedPRs : Nat → Option String → List PRInfo) (issues : List Issue) :
    List.Sublist ((filter_issues_sequential getLinkedPRs issues).map FilteredIssue.number)
      (issues.map Issue.number) := by
  induction issues with
  | nil => simp [filter_issues_sequential]
  | cons i rest ih =>
    unfold filter_issues_sequential at ih ⊢
    rw [List.filterMap_cons]
    cases hsi : surviving_issue getLinkedPRs i with
    | none => exact List.Sublist.cons i.number ih
    | some fi =>
      rw [List.map_cons, List.map_cons, surviving_issue_number getLinkedPRs i fi hsi]
      exact List.Sublist.cons₂ i.number ih

/-- C7 counterexample: in sequential API mode the pipeline does not sort.
With issues #5 and #3 (in that input order) both surviving, the returned
survivor list has numbers `[5, 3]`, which is not sorted by ascending issue
number. -/
theorem sequential_mode_unsorted_counterexample :
    (filter_issues_sequential eagerPROracle
        [⟨5, "a", "u5", "closed", "2024", "2024", some "body five", []⟩,
         ⟨3, "b", "u3", "closed", "2024", "2024", some "body three", []⟩]).map
      FilteredIssue.number = [5, 3]
    ∧ ¬ List.Sorted byNumber
        (filter_issues_sequential eagerPROracle
          [⟨5, "a", "u5", "closed", "2024", "2024", some "body five", []⟩,
           ⟨3, "b", "u3", "closed", "2024", "2024", some "body three", []⟩]) := by
  constructor <;> decide

/-- C7 amended: in concurrent local-clone mode the survivor list is sorted by
ascending issue number regardless of completion order, and it is a
permutation of the sequential-mode survivors of the same issue set; in
sequential API mode survivors are returned in input order — their issue
numbers form a sublist of the input's issue numbers — and are not re-sorted. -/
theorem filter_issues_order_amended
    (getLinkedPRs : Nat → Option String → List PRInfo)
    (issues completionOrder : List Issue)
    (hperm : List.Perm completionOrder issues) :
    List.Sorted byNumber (filter_issues_concurrent getLinkedPRs completionOrder)
    ∧ List.Perm (filter_issues_concurrent getLinkedPRs completionOrder)
        (filter_issues_sequential getLinkedPRs issues)
    ∧ List.Sublist ((filter_issues_sequential getLinkedPRs issues).map FilteredIssue.number)
        (issues.map Issue.number) := by
  refine ⟨sorted_sort_by_number _, ?_, filter_issues_sequential_numbers_sublist _ _⟩
  exact List.Perm.trans (sort_by_number_perm _)
    (List.Perm.filterMap (surviving_issue getLinkedPRs) hperm)

/-- C7 amended witness: concrete issues #5, #3 submitted in that order with
completion order reversed; the concurrent result is sorted while the
sequential result keeps input order. -/
theorem filter_issues_order_amended_witness :
    List.Sorted byNumber (filter_issues_concurrent eagerPROracle
      [⟨3, "b", "u3", "closed", "2024", "2024", some "body three", []⟩,
       ⟨5, "a", "u5", "closed", "2024", "2024", some "body five", []⟩])
    ∧ List.Perm (filter_issues_concurrent eagerPROracle
        [⟨3, "b", "u3", "closed", "2024", "2024", some "body three", []⟩,
         ⟨5, "a", "u5", "closed", "2024", "2024", some "body five", []⟩])
        (filter_issues_sequential eagerPROracle
          [⟨5, "a", "u5", "closed", "2024", "2024", some "body five", []⟩,
           ⟨3, "b", "u3", "closed", "2024", "2024", some "body three", []⟩])
    ∧ List.Sublist ((filter_issues_sequential eagerPROracle
          [⟨5, "a", "u5", "closed", "2024", "2024", some "body five", []⟩,
           ⟨3, "b", "u3", "closed", "2024", "2024", some "body three", []⟩]).map
        FilteredIssue.number)
        ([⟨5, "a", "u5", "closed", "2024", "2024", some "body five", []⟩,
          (⟨3, "b", "u3", "closed", "2024", "2024", some "body three", []⟩ : Issue)].map
          Issue.number) :=
  filter_issues_order_amended eagerPROracle
    [⟨5, "a", "u5", "closed", "2024", "2024", some "body five", []⟩,
     ⟨3, "b", "u3", "closed", "2024", "2024", some "body three", []⟩]
    [⟨3, "b", "u3", "closed", "2024", "2024", some "body three", []⟩,
     ⟨5, "a", "u5", "closed", "2024", "2024", some "body five", []⟩]
    (by decide)

/-! ## C10 — closed-issue pagination

`GitHubIssueCrawler._get_all_closed_issues` (lines 211-251): a page loop with
`per_page = 100`; each response either fails (`None`), is empty, or is a list
of raw items in which GitHub intermixes pull requests; items carrying a
`pull_request` key are dropped; the loop breaks on a failed response, an
empty page, or a page with fewer than 100 raw entries. The successive
responses of pages 1, 2, ... are the input list. -/

/-- A raw element of the REST issues listing; `isPullRequest` models the
presence of the `pull_request` key. -/
structure RawIssue where
  number : Nat
  title : String
  isPullRequest : Bool
deriving Repr, DecidableEq

/-- Models `_get_all_closed_issues` over the stream of page responses
(`none` = failed request). Per the source, `per_page` is fixed at 100. -/
def get_all_closed_issues : List (Option (List RawIssue)) → List RawIssue
  | [] => []
  | none :: _ => []
  | some pageData :: rest =>
    if pageData.isEmpty then []
    else
      pageData.filter (fun it => !it.isPullRequest)
        ++ (if pageData.length < 100 then [] else get_all_closed_issues rest)

/-- C10: (1) every returned element lacks the `pull_request` key even though
pages intermix pull requests; (2) after a failed page, an empty page, or a
short page (fewer than 100 raw entries), the result does not depend on any
later page — pagination has stopped; (3) a full non-empty page contributes
its non-PR items and pagination continues with the remaining pages. -/
theorem closed_issue_pagination :
    (∀ pages it, it ∈ get_all_closed_issues pages → it.isPullRequest = false)
    ∧ (∀ rest rest' : List (Option (List RawIssue)),
        get_all_closed_issues (none :: rest) = get_all_closed_issues (none :: rest'))
    ∧ (∀ rest rest' : List (Option (List RawIssue)),
        get_all_closed_issues (some [] :: rest) = get_all_closed_issues (some [] :: rest'))
    ∧ (∀ (d : List RawIssue) rest rest', d.length < 100 →
        get_all_closed_issues (some d :: rest) = get_all_closed_issues (some d :: rest'))
    ∧ (∀ (d : List RawIssue) rest, d ≠ [] → ¬ d.length < 100 →
        get_all_closed_issues (some d :: rest)
          = d.filter (fun it => !it.isPullRequest) ++ get_all_closed_issues rest) := by
  refine ⟨?_, fun rest rest' => rfl, fun rest rest' => rfl, ?_, ?_⟩
  · intro pages
    induction pages with
    | nil => intro it h; simp [get_all_closed_issues] at h
    | cons p rest ih =>
      intro it h
      match p with
      | none => simp [get_all_closed_issues] at h
      | some pageData =>
        unfold get_all_closed_issues at h
        by_cases hemp : pageData.isEmpty
        · rw [if_pos hemp] at h
          simp at h
        · rw [if_neg hemp] at h
          rcases List.mem_append.mp h with h1 | h1
          · have := List.of_mem_filter h1
            simpa using this
          · by_cases hshort : pageData.length < 100
            · rw [if_pos hshort] at h1
              simp at h1
            · rw [if_neg hshort] at h1
              exact ih it h1
  · intro d rest rest' hshort
    unfold get_all_closed_issues
    by_cases hemp : d.isEmpty
    · rw [if_pos hemp, if_pos hemp]
    · rw [if_neg hemp, if_neg hemp, if_pos hshort, if_pos hshort]
  · intro d rest hne hlong
    unfold get_all_closed_issues
    rw [if_neg (by simpa [List.isEmpty_iff] using hne), if_neg hlong]
    congr 1
    rw [get_all_closed_issues.eq_def]

/-- A raw pull-request entry and a raw issue entry for the witness pages. -/
def rawPR : RawIssue := ⟨7, "pr", true⟩

/-- A raw plain-issue entry. -/
def rawPlain : RawIssue := ⟨8, "bug", false⟩

/-- C10 witness: a full first page of 100 entries (alternating PRs and
issues) followed by a short page; the theorem's parts are applied at these
concrete pages. -/
theorem closed_issue_pagination_witness :
    (rawPlain ∈ get_all_closed_issues
        [some (List.replicate 50 rawPR ++ List.replicate 50 rawPlain), some [rawPR], none] →
      rawPlain.isPullRequest = false)
    ∧ get_all_closed_issues (some [rawPlain, rawPR] :: [some [rawPlain]])
        = get_all_closed_issues (some [rawPlain, rawPR] :: [none])
    ∧ get_all_closed_issues
        (some (List.replicate 50 rawPR ++ List.replicate 50 rawPlain) :: [some [rawPlain]])
        = (List.replicate 50 rawPR ++ List.replicate 50 rawPlain).filter
            (fun it => !it.isPullRequest)
          ++ get_all_closed_issues [some [rawPlain]] :=
  ⟨closed_issue_pagination.1
      [some (List.replicate 50 rawPR ++ List.replicate 50 rawPlain), some [rawPR], none] rawPlain,
   closed_issue_pagination.2.2.2.1 [rawPlain, rawPR] [some [rawPlain]] [none] (by decide),
   closed_issue_pagination.2.2.2.2 (List.replicate 50 rawPR ++ List.replicate 50 rawPlain)
     [some [rawPlain]] (by decide) (by decide)⟩

/-! ## C3 — the result merger

`repo_merge/main.py` `RepoMerger.merge_repo` (lines 119-155). The per-process
state `self.repos` is a mapping from repository name to a record; Python sets
(`source_types`, `original_sources`) are modelled as duplicate-free lists
grown by append-if-absent, which matches their membership semantics. -/

/-- The merged record stored in `self.repos[repo_name]`. -/
structure RepoRec where
  name : String
  stars : Nat
  sources : List String
  source_types : List String
  original_sources : List String
  first_seen : String
deriving Repr, DecidableEq

/-- One extracted tuple fed to `merge_repo` (from
`extract_repos_from_github_archive` / `extract_repos_from_github_repo`); an
absent/`None` `original_sources` is the empty list, matching the falsiness
test in the source. -/
structure RepoInput where
  name : String
  stars : Nat
  source : String
  source_type : String
  original_sources : List String
deriving Repr, DecidableEq

/-- `set.add` on a set modelled as a duplicate-free list. -/
def addIfAbsent (l : List String) (x : String) : List String :=
  if x ∈ l then l else l ++ [x]

/-- The update half of `RepoMerger.merge_repo` (lines 138-155), applied to
the current record `cur` for `r.name`: append the source filename if new,
add the source type, raise stars to the maximum, and union in
`original_sources` when non-empty. -/
def merged_rec (cur : RepoRec) (r : RepoInput) : RepoRec :=
  let c1 : RepoRec :=
    { cur with sources := if r.source ∈ cur.sources then cur.sources else cur.sources ++ [r.source] }
  let c2 : RepoRec := { c1 with source_types := addIfAbsent c1.source_types r.source_type }
  let c3 : RepoRec := { c2 with stars := if r.stars > c2.stars then r.stars else c2.stars }
  if r.original_sources = [] then c3
  else { c3 with original_sources := List.foldl addIfAbsent c3.original_sources r.original_sources }

/-- Models `RepoMerger.merge_repo`: create the entry if absent (lines
128-136: initial stars from this record, empty collections, `first_seen`
from its source), then run the update half on it. -/
def merge_repo (repos : String → Option RepoRec) (r : RepoInput) :
    String → Option RepoRec :=
  let cur : RepoRec :=
    match repos r.name with
    | some rec0 => rec0
    | none => ⟨r.name, r.stars, [], [], [], r.source⟩
  fun n => if n = r.name then some (merged_rec cur r) else repos n

/-- Folding a list of extracted tuples into the merger state (the
`for repo_info in repos: self.merge_repo(repo_info)` loop of
`process_json_file`). -/
def merge_all (repos : String → Option RepoRec) (rs : List RepoInput) :
    String → Option RepoRec :=
  rs.foldl merge_repo repos

/-- The merger's initial state (`self.repos = {}`). -/
def empty_repos : String → Option RepoRec := fun _ => none

/-- The stars of the folded records whose name is `n`, in fold order. -/
def matching_stars (rs : List RepoInput) (n : String) : List Nat :=
  rs.filterMap (fun r => if r.name = n then some r.stars else none)

/-- A state already contains everything record `r` would contribute. -/
def absorbs (repos : String → Option RepoRec) (r : RepoInput) : Prop :=
  ∃ rec0, repos r.name = some rec0
    ∧ r.source ∈ rec0.sources
    ∧ r.source_type ∈ rec0.source_types
    ∧ r.stars ≤ rec0.stars
    ∧ ∀ x ∈ r.original_sources, x ∈ rec0.original_sources

lemma mem_addIfAbsent_self (l : List String) (x : String) : x ∈ addIfAbsent l x := by
  unfold addIfAbsent
  by_cases h : x ∈ l
  · rwa [if_pos h]
  · rw [if_neg h]
    exact List.mem_append.mpr (Or.inr (List.mem_singleton.mpr rfl))

lemma mem_addIfAbsent_of_mem {l : List String} {y : String} (x : String) (h : y ∈ l) :
    y ∈ addIfAbsent l x := by
  unfold addIfAbsent
  by_cases hx : x ∈ l
  · rwa [if_pos hx]
  · rw [if_neg hx]
    exact List.mem_append.mpr (Or.inl h)

lemma addIfAbsent_of_mem {l : List String} {x : String} (h : x ∈ l) :
    addIfAbsent l x = l := by
  unfold addIfAbsent
  rw [if_pos h]

lemma mem_foldl_addIfAbsent_of_mem {l : List String} {y : String} (xs : List String)
    (h : y ∈ l) : y ∈ List.foldl addIfAbsent l xs := by
  induction xs generalizing l with
  | nil => exact h
  | cons x xs ih => exact ih (mem_addIfAbsent_of_mem x h)

lemma mem_foldl_addIfAbsent_of_mem_arg {xs : List String} {y : String} (l : List String)
    (h : y ∈ xs) : y ∈ List.foldl addIfAbsent l xs := by
  induction xs generalizing l with
  | nil => simp at h
  | cons x xs ih =>
    rcases List.mem_cons.mp h with h1 | h1
    · subst h1
      exact mem_foldl_addIfAbsent_of_mem xs (mem_addIfAbsent_self l y)
    · exact ih (addIfAbsent l x) h1

lemma foldl_addIfAbsent_absorbed {l : List String} {xs : List String}
    (h : ∀ x ∈ xs, x ∈ l) : List.foldl addIfAbsent l xs = l := by
  induction xs with
  | nil => rfl
  | cons x xs ih =>
    rw [List.foldl_cons, addIfAbsent_of_mem (h x (List.mem_cons.mpr (Or.inl rfl)))]
    exact ih (fun y hy => h y (List.mem_cons.mpr (Or.inr hy)))

lemma merged_rec_name (cur : RepoRec) (r : RepoInput) : (merged_rec cur r).name = cur.name := by
  unfold merged_rec
  by_cases h4 : r.original_sources = []
  · rw [if_pos h4]
  · rw [if_neg h4]

lemma merged_rec_first_seen (cur : RepoRec) (r : RepoInput) :
    (merged_rec cur r).first_seen = cur.first_seen := by
  unfold merged_rec
  by_cases h4 : r.original_sources = []
  · rw [if_pos h4]
  · rw [if_neg h4]

lemma merged_rec_sources (cur : RepoRec) (r : RepoInput) :
    (merged_rec cur r).sources
      = if r.source ∈ cur.sources then cur.sources else cur.sources ++ [r.source] := by
  unfold merged_rec
  by_cases h4 : r.original_sources = []
  · rw [if_pos h4]
  · rw [if_neg h4]

lemma merged_rec_source_types (cur : RepoRec) (r : RepoInput) :
    (merged_rec cur r).source_types = addIfAbsent cur.source_types r.source_type := by
  unfold merged_rec
  by_cases h4 : r.original_sources = []
  · rw [if_pos h4]
  · rw [if_neg h4]

lemma merged_rec_stars (cur : RepoRec) (r : RepoInput) :
    (merged_rec cur r).stars = max cur.stars r.stars := by
  unfold merged_rec
  have hmax : (if r.stars > cur.stars then r.stars else cur.stars) = max cur.stars r.stars := by
    by_cases h3 : r.stars > cur.stars
    · rw [if_pos h3, Nat.max_eq_right (Nat.le_of_lt h3)]
    · rw [if_neg h3, Nat.max_eq_left (Nat.le_of_not_lt h3)]
  by_cases h4 : r.original_sources = []
  · rw [if_pos h4]
    exact hmax
  · rw [if_neg h4]
    exact hmax

lemma merged_rec_original_sources (cur : RepoRec) (r : RepoInput) :
    (merged_rec cur r).original_sources
      = if r.original_sources = [] then cur.original_sources
        else List.foldl addIfAbsent cur.original_sources r.original_sources := by
  unfold merged_rec
  by_cases h4 : r.original_sources = []
  · rw [if_pos h4, if_pos h4]
  · rw [if_neg h4, if_neg h4]

lemma RepoRec.eq_of_fields {a b : RepoRec} (h1 : a.name = b.name) (h2 : a.stars = b.stars)
    (h3 : a.sources = b.sources) (h4 : a.source_types = b.source_types)
    (h5 : a.original_sources = b.original_sources) (h6 : a.first_seen = b.first_seen) :
    a = b := by
  cases a
  cases b
  simp_all

lemma merged_rec_absorbed {cur : RepoRec} {r : RepoInput}
    (hs : r.source ∈ cur.sources) (ht : r.source_type ∈ cur.source_types)
    (hstars : r.stars ≤ cur.stars)
    (horig : ∀ x ∈ r.original_sources, x ∈ cur.original_sources) :
    merged_rec cur r = cur := by
  refine RepoRec.eq_of_fields (merged_rec_name cur r) ?_ ?_ ?_ ?_ (merged_rec_first_seen cur r)
  · rw [merged_rec_stars, Nat.max_eq_left hstars]
  · rw [merged_rec_sources, if_pos hs]
  · rw [merged_rec_source_types, addIfAbsent_of_mem ht]
  · rw [merged_rec_original_sources]
    by_cases h4 : r.original_sources = []
    · rw [if_pos h4]
    · rw [if_neg h4, foldl_addIfAbsent_absorbed horig]

lemma merged_rec_grows (cur : RepoRec) (r : RepoInput) :
    cur.stars ≤ (merged_rec cur r).stars
    ∧ (∀ x ∈ cur.sources, x ∈ (merged_rec cur r).sources)
    ∧ (∀ x ∈ cur.source_types, x ∈ (merged_rec cur r).source_types)
    ∧ (∀ x ∈ cur.original_sources, x ∈ (merged_rec cur r).original_sources) := by
  refine ⟨?_, ?_, ?_, ?_⟩
  · rw [merged_rec_stars]
    exact Nat.le_max_left _ _
  · intro x hx
    rw [merged_rec_sources]
    by_cases h1 : r.source ∈ cur.sources
    · rwa [if_pos h1]
    · rw [if_neg h1]
      exact List.mem_append.mpr (Or.inl hx)
  · intro x hx
    rw [merged_rec_source_types]
    exact mem_addIfAbsent_of_mem _ hx
  · intro x hx
    rw [merged_rec_original_sources]
    by_cases h4 : r.original_sources = []
    · rwa [if_pos h4]
    · rw [if_neg h4]
      exact mem_foldl_addIfAbsent_of_mem _ hx

lemma merged_rec_takes_input (cur : RepoRec) (r : RepoInput) :
    r.source ∈ (merged_rec cur r).sources
    ∧ r.source_type ∈ (merged_rec cur r).source_types
    ∧ r.stars ≤ (merged_rec cur r).stars
    ∧ ∀ x ∈ r.original_sources, x ∈ (merged_rec cur r).original_sources := by
  refine ⟨?_, ?_, ?_, ?_⟩
  · rw [merged_rec_sources]
    by_cases h1 : r.source ∈ cur.sources
    · rwa [if_pos h1]
    · rw [if_neg h1]
      exact List.mem_append.mpr (Or.inr (List.mem_singleton.mpr rfl))
  · rw [merged_rec_source_types]
    exact mem_addIfAbsent_self _ _
  · rw [merged_rec_stars]
    exact Nat.le_max_right _ _
  · intro x hx
    rw [merged_rec_original_sources]
    have h4 : r.original_sources ≠ [] := by
      intro he
      rw [he] at hx
      simp at hx
    rw [if_neg h4]
    exact mem_foldl_addIfAbsent_of_mem_arg _ hx

lemma merge_repo_eq_of_ne {repos : String → Option RepoRec} {r : RepoInput} {n : String}
    (h : n ≠ r.name) : merge_repo repos r n = repos n := by
  unfold merge_repo
  simp only [if_neg h]

lemma merge_repo_self_some {repos : String → Option RepoRec} {r : RepoInput} {rec0 : RepoRec}
    (h : repos r.name = some rec0) :
    merge_repo repos r r.name = some (merged_rec rec0 r) := by
  unfold merge_repo
  rw [if_pos rfl, h]

lemma merge_repo_self_none {repos : String → Option RepoRec} {r : RepoInput}
    (h : repos r.name = none) :
    merge_repo repos r r.name
      = some (merged_rec ⟨r.name, r.stars, [], [], [], r.source⟩ r) := by
  unfold merge_repo
  rw [if_pos rfl, h]

lemma merge_repo_absorbed {repos : String → Option RepoRec} {r : RepoInput}
    (h : absorbs repos r) : merge_repo repos r = repos := by
  obtain ⟨rec0, hlook, hs, ht, hstars, horig⟩ := h
  funext n
  by_cases hn : n = r.name
  · subst hn
    rw [merge_repo_self_some hlook, merged_rec_absorbed hs ht hstars horig, hlook]
  · exact merge_repo_eq_of_ne hn

lemma merge_repo_mono {repos : String → Option RepoRec} (r : RepoInput) {n : String}
    {rec0 : RepoRec} (h : repos n = some rec0) :
    ∃ rec1, merge_repo repos r n = some rec1
      ∧ rec0.stars ≤ rec1.stars
      ∧ (∀ x ∈ rec0.sources, x ∈ rec1.sources)
      ∧ (∀ x ∈ rec0.source_types, x ∈ rec1.source_types)
      ∧ (∀ x ∈ rec0.original_sources, x ∈ rec1.original_sources) := by
  by_cases hn : n = r.name
  · subst hn
    exact ⟨merged_rec rec0 r, merge_repo_self_some h, (merged_rec_grows rec0 r).1,
      (merged_rec_grows rec0 r).2.1, (merged_rec_grows rec0 r).2.2.1,
      (merged_rec_grows rec0 r).2.2.2⟩
  · exact ⟨rec0, by rw [merge_repo_eq_of_ne hn, h], Nat.le_refl _,
      fun x hx => hx, fun x hx => hx, fun x hx => hx⟩

lemma merge_all_mono {rs : List RepoInput} {repos : String → Option RepoRec} {n : String}
    {rec0 : RepoRec} (h : repos n = some rec0) :
    ∃ rec1, merge_all repos rs n = some rec1
      ∧ rec0.stars ≤ rec1.stars
      ∧ (∀ x ∈ rec0.sources, x ∈ rec1.sources)
      ∧ (∀ x ∈ rec0.source_types, x ∈ rec1.source_types)
      ∧ (∀ x ∈ rec0.original_sources, x ∈ rec1.original_sources) := by
  induction rs generalizing repos rec0 with
  | nil => exact ⟨rec0, h, Nat.le_refl _, fun x hx => hx, fun x hx => hx, fun x hx => hx⟩
  | cons a rs ih =>
    obtain ⟨rec1, h1, hs1, hso1, hst1, ho1⟩ := merge_repo_mono a h
    obtain ⟨rec2, h2, hs2, hso2, hst2, ho2⟩ := ih h1
    exact ⟨rec2, h2, Nat.le_trans hs1 hs2, fun x hx => hso2 x (hso1 x hx),
      fun x hx => hst2 x (hst1 x hx), fun x hx => ho2 x (ho1 x hx)⟩

lemma absorbs_merge_self (repos : String → Option RepoRec) (r : RepoInput) :
    absorbs (merge_repo repos r) r := by
  cases hl : repos r.name with
  | some rec0 =>
    exact ⟨merged_rec rec0 r, merge_repo_self_some hl, (merged_rec_takes_input rec0 r).1,
      (merged_rec_takes_input rec0 r).2.1, (merged_rec_takes_input rec0 r).2.2.1,
      (merged_rec_takes_input rec0 r).2.2.2⟩
  | none =>
    refine ⟨merged_rec ⟨r.name, r.stars, [], [], [], r.source⟩ r, merge_repo_self_none hl,
      (merged_rec_takes_input _ r).1, (merged_rec_takes_input _ r).2.1,
      (merged_rec_takes_input _ r).2.2.1, (merged_rec_takes_input _ r).2.2.2⟩

lemma absorbs_merge_repo {repos : String → Option RepoRec} {r : RepoInput} (a : RepoInput)
    (h : absorbs repos r) : absorbs (merge_repo repos a) r := by
  obtain ⟨rec0, hlook, hs, ht, hstars, horig⟩ := h
  obtain ⟨rec1, h1, hs1, hso1, hst1, ho1⟩ := merge_repo_mono a hlook
  exact ⟨rec1, h1, hso1 _ hs, hst1 _ ht, Nat.le_trans hstars hs1,
    fun x hx => ho1 x (horig x hx)⟩

lemma absorbs_merge_all {repos : String → Option RepoRec} {r : RepoInput}
    (rs : List RepoInput) (h : absorbs repos r) : absorbs (merge_all repos rs) r := by
  induction rs generalizing repos with
  | nil => exact h
  | cons a rs ih => exact ih (absorbs_merge_repo a h)

lemma merge_all_absorbs_all {rs : List RepoInput} {r : RepoInput}
    (repos : String → Option RepoRec) (h : r ∈ rs) : absorbs (merge_all repos rs) r := by
  induction rs generalizing repos with
  | nil => simp at h
  | cons a rs ih =>
    rcases List.mem_cons.mp h with h1 | h1
    · subst h1
      exact absorbs_merge_all rs (absorbs_merge_self repos r)
    · show absorbs (merge_all (merge_repo repos a) rs) r
      exact ih (merge_repo repos a) h1

lemma merge_all_absorbed {rs : List RepoInput} {repos : String → Option RepoRec}
    (h : ∀ r ∈ rs, absorbs repos r) : merge_all repos rs = repos := by
  induction rs with
  | nil => rfl
  | cons a rs ih =>
    show merge_all (merge_repo repos a) rs = repos
    rw [merge_repo_absorbed (h a (List.mem_cons.mpr (Or.inl rfl)))]
    exact ih (fun r hr => h r (List.mem_cons.mpr (Or.inr hr)))

lemma matching_stars_cons (r : RepoInput) (rs : List RepoInput) (n : String) :
    matching_stars (r :: rs) n
      = if r.name = n then r.stars :: matching_stars rs n else matching_stars rs n := by
  unfold matching_stars
  rw [List.filterMap_cons]
  by_cases h : r.name = n
  · rw [if_pos h, if_pos h]
  · rw [if_neg h, if_neg h]

lemma merge_all_stars_invariant (rs : List RepoInput) :
    ∀ (repos : String → Option RepoRec) (n : String),
      (∀ rec0, repos n = some rec0 → ∀ rec1, merge_all repos rs n = some rec1 →
        rec1.stars = List.foldl max rec0.stars (matching_stars rs n))
      ∧ (repos n = none → ∀ rec1, merge_all repos rs n = some rec1 →
        rec1.stars = List.foldl max 0 (matching_stars rs n)) := by
  induction rs with
  | nil =>
    intro repos n
    constructor
    · intro rec0 h0 rec1 h1
      rw [show merge_all repos [] n = repos n from rfl, h0] at h1
      cases h1
      rfl
    · intro h0 rec1 h1
      rw [show merge_all repos [] n = repos n from rfl, h0] at h1
      cases h1
  | cons r rs ih =>
    intro repos n
    have hstep : merge_all repos (r :: rs) = merge_all (merge_repo repos r) rs := rfl
    constructor
    · intro rec0 h0 rec1 h1
      rw [hstep] at h1
      by_cases hn : r.name = n
      · subst hn
        have hm := merge_repo_self_some h0
        have := ((ih (merge_repo repos r) r.name).1) (merged_rec rec0 r) hm rec1 h1
        rw [this, merged_rec_stars, matching_stars_cons, if_pos rfl, List.foldl_cons]
      · have hkeep : merge_repo repos r n = some rec0 := by
          rw [merge_repo_eq_of_ne (fun he => hn he.symm), h0]
        have := ((ih (merge_repo repos r) n).1) rec0 hkeep rec1 h1
        rw [this, matching_stars_cons, if_neg hn]
    · intro h0 rec1 h1
      rw [hstep] at h1
      by_cases hn : r.name = n
      · subst hn
        have hm := merge_repo_self_none h0
        have := ((ih (merge_repo repos r) r.name).1) _ hm rec1 h1
        rw [this, merged_rec_stars, matching_stars_cons, if_pos rfl, List.foldl_cons,
          Nat.zero_max]
        show List.foldl max (max r.stars r.stars) _ = _
        rw [Nat.max_self]
      · have hkeep : merge_repo repos r n = none := by
          rw [merge_repo_eq_of_ne (fun he => hn he.symm), h0]
        have := ((ih (merge_repo repos r) n).2) hkeep rec1 h1
        rw [this, matching_stars_cons, if_neg hn]

/-- C3: (1) idempotence — folding the same extracted records twice yields a
state pointwise identical to folding them once (in particular identical
`(name, stars, sources)` per key); (2) monotonicity — folding more records
never deletes a key, never lowers its stars, and only grows its `sources`,
`source_types` and `original_sources`; (3) for every key present after a
merge from the empty state, its stars equal the maximum stars seen across
all folded records with that name. -/
theorem merge_idempotent_monotone :
    (∀ (repos : String → Option RepoRec) (rs : List RepoInput),
      merge_all repos (rs ++ rs) = merge_all repos rs)
    ∧ (∀ (repos : String → Option RepoRec) (rs : List RepoInput) (n : String) (rec0 : RepoRec),
        repos n = some rec0 →
          ∃ rec1, merge_all repos rs n = some rec1
            ∧ rec0.stars ≤ rec1.stars
            ∧ (∀ x ∈ rec0.sources, x ∈ rec1.sources)
            ∧ (∀ x ∈ rec0.source_types, x ∈ rec1.source_types)
            ∧ (∀ x ∈ rec0.original_sources, x ∈ rec1.original_sources))
    ∧ (∀ (rs : List RepoInput) (n : String) (rec1 : RepoRec),
        merge_all empty_repos rs n = some rec1 →
          rec1.stars = List.foldl max 0 (matching_stars rs n)) := by
  refine ⟨?_, ?_, ?_⟩
  · intro repos rs
    have hsplit : merge_all repos (rs ++ rs) = merge_all (merge_all repos rs) rs := by
      unfold merge_all
      rw [List.foldl_append]
    rw [hsplit]
    exact merge_all_absorbed (fun r hr => merge_all_absorbs_all repos hr)
  · intro repos rs n rec0 h
    exact merge_all_mono h
  · intro rs n rec1 h
    exact ((merge_all_stars_invariant rs empty_repos n).2) rfl rec1 h

/-- An archive-shaped extracted tuple (Scenario-style, stars 100). -/
def mergeInputA : RepoInput :=
  ⟨"foo/agent", 100, "github_archive_repo_2024-01-01.json", "github_archive", []⟩

/-- An awesome-list-shaped extracted tuple for the same repo (stars 150). -/
def mergeInputB : RepoInput :=
  ⟨"foo/agent", 150, "github_repo_2024-01-02.json", "github_repo", ["awesome-x/awesome-agents"]⟩

/-- The record after folding `mergeInputA` alone. -/
def mergedRecA : RepoRec :=
  ⟨"foo/agent", 100, ["github_archive_repo_2024-01-01.json"], ["github_archive"], [],
   "github_archive_repo_2024-01-01.json"⟩

/-- The record after folding `mergeInputA` then `mergeInputB`. -/
def mergedRecAB : RepoRec :=
  ⟨"foo/agent", 150, ["github_archive_repo_2024-01-01.json", "github_repo_2024-01-02.json"],
   ["github_archive", "github_repo"], ["awesome-x/awesome-agents"],
   "github_archive_repo_2024-01-01.json"⟩

/-- C3 witness: the theorem's three parts applied to the two concrete
snapshot tuples for `foo/agent` with stars 100 and 150. -/
theorem merge_idempotent_monotone_witness :
    merge_all empty_repos ([mergeInputA, mergeInputB] ++ [mergeInputA, mergeInputB]) "foo/agent"
      = merge_all empty_repos [mergeInputA, mergeInputB] "foo/agent"
    ∧ (∃ rec1, merge_all (merge_all empty_repos [mergeInputA]) [mergeInputB] "foo/agent"
          = some rec1
        ∧ mergedRecA.stars ≤ rec1.stars
        ∧ (∀ x ∈ mergedRecA.sources, x ∈ rec1.sources)
        ∧ (∀ x ∈ mergedRecA.source_types, x ∈ rec1.source_types)
        ∧ (∀ x ∈ mergedRecA.original_sources, x ∈ rec1.original_sources))
    ∧ mergedRecAB.stars = List.foldl max 0 (matching_stars [mergeInputA, mergeInputB] "foo/agent") :=
  ⟨congrFun (merge_idempotent_monotone.1 empty_repos [mergeInputA, mergeInputB]) "foo/agent",
   merge_idempotent_monotone.2.1 (merge_all empty_repos [mergeInputA]) [mergeInputB]
     "foo/agent" mergedRecA (by decide),
   merge_idempotent_monotone.2.2 [mergeInputA, mergeInputB] "foo/agent" mergedRecAB (by decide)⟩

/-! ## C8 — GraphQL batch partial failure

`github_api.py` `GitHubAPI.get_repos_info_batch_graphql` (lines 127-246),
for one batch POST. `aliases` is the built alias→repo-name association
(`repo{idx}` keys); the parsed response is `Option GQLResponse` (`none` =
the request raised); `restInfo` abstracts the single-item REST adapter
`get_repo_info`; `batch` is the raw name slice used by the exception
fallback. The `results` dict is a partial map from repo name to
`Option RepoInfo` (the inner `none` models Python's `results[name] = None`). -/

/-- One aliased repository object of a GraphQL response. -/
structure GQLRepoData where
  nameWithOwner : String
  description : Option String
  stargazerCount : Nat
  primaryLanguage : Option String
  topics : List String
deriving Repr, DecidableEq

/-- One entry of the response's `errors` array; `path = none` models an
error object with no `path` key. -/
structure GQLError where
  errType : String
  path : Option (List String)
deriving Repr, DecidableEq

/-- A parsed GraphQL response body: the `errors` array (empty when absent)
and the `data` object as an alias-keyed association (`none` = `data` absent
or null). -/
structure GQLResponse where
  errors : List GQLError
  payload : Option (List (String × GQLRepoData))
deriving Repr, DecidableEq

/-- The repository info dict assembled per alias (and by `get_repo_info`). -/
structure RepoInfo where
  name : String
  description : String
  stars : Nat
  language : String
  topics : List String
deriving Repr, DecidableEq

/-- Association-list lookup (Python `dict.get`). -/
def lookupAList {α : Type} : List (String × α) → String → Option α
  | [], _ => none
  | (k, v) :: rest, key => if k = key then some v else lookupAList rest key

/-- `results[k] = v` on the partial results map. -/
def setResult (res : String → Option (Option RepoInfo)) (k : String) (v : Option RepoInfo) :
    String → Option (Option RepoInfo) :=
  fun n => if n = k then some v else res n

/-- Building one alias's info dict (lines 217-232): `description or ''`,
safe `primaryLanguage` access, topics collapsed by the comprehension. -/
def convertRepoData (d : GQLRepoData) : RepoInfo :=
  { name := d.nameWithOwner, description := d.description.getD "",
    stars := d.stargazerCount, language := d.primaryLanguage.getD "",
    topics := d.topics }

/-- The NOT_FOUND error pass (lines 190-206): for each error of type
`NOT_FOUND` with a non-empty path whose head resolves in `aliases`, set that
repo's result to `None`. -/
def markNotFound (aliases : List (String × String)) (errors : List GQLError)
    (res : String → Option (Option RepoInfo)) : String → Option (Option RepoInfo) :=
  errors.foldl
    (fun acc e =>
      if e.errType = "NOT_FOUND" then
        match e.path with
        | some (a :: _) =>
          if a = "" then acc
          else
            match lookupAList aliases a with
            | some rn => setResult acc rn none
            | none => acc
        | _ => acc
      else acc)
    res

/-- Models one batch iteration of `get_repos_info_batch_graphql`:
`resp = none` is the `except` fallback over the raw batch slice;
otherwise NOT_FOUND errors are marked, then — if the `data` object is
present and non-empty — every alias is resolved from it (`None` when its
entry is missing), else every alias falls back to `get_repo_info`. -/
def process_batch_response (aliases : List (String × String)) (batch : List String)
    (restInfo : String → Option RepoInfo) (resp : Option GQLResponse) :
    String → Option (Option RepoInfo) :=
  match resp with
  | none =>
    batch.foldl (fun acc rn => setResult acc rn (restInfo rn)) (fun _ => none)
  | some r =>
    let res1 := markNotFound aliases r.errors (fun _ => none)
    match r.payload with
    | some d =>
      if d ≠ [] then
        aliases.foldl
          (fun acc p =>
            match lookupAList d p.1 with
            | some rd => setResult acc p.2 (some (convertRepoData rd))
            | none => setResult acc p.2 none)
          res1
      else
        aliases.foldl (fun acc p => setResult acc p.2 (restInfo p.2)) res1
    | none =>
      aliases.foldl (fun acc p => setResult acc p.2 (restInfo p.2)) res1

lemma setResult_self (res : String → Option (Option RepoInfo)) (k : String)
    (v : Option RepoInfo) : setResult res k v k = some v := by
  unfold setResult
  rw [if_pos rfl]

lemma setResult_other {k n : String} (res : String → Option (Option RepoInfo))
    (v : Option RepoInfo) (h : n ≠ k) : setResult res k v n = res n := by
  unfold setResult
  rw [if_neg h]

lemma foldl_data_loop_not_mentioned (d : List (String × GQLRepoData))
    (aliases : List (String × String)) (acc : String → Option (Option RepoInfo)) {rn : String}
    (h : rn ∉ aliases.map Prod.snd) :
    (aliases.foldl
      (fun acc p =>
        match lookupAList d p.1 with
        | some rd => setResult acc p.2 (some (convertRepoData rd))
        | none => setResult acc p.2 none)
      acc) rn = acc rn := by
  induction aliases generalizing acc with
  | nil => rfl
  | cons p rest ih =>
    have hrest : rn ∉ rest.map Prod.snd := fun hm => h (by simp [hm])
    have hne : rn ≠ p.2 := fun he => h (by simp [he])
    rw [List.foldl_cons]
    cases hl : lookupAList d p.1 with
    | some rd =>
      rw [ih _ hrest]
      exact setResult_other acc _ hne
    | none =>
      rw [ih _ hrest]
      exact setResult_other acc _ hne

lemma foldl_data_loop_resolves (d : List (String × GQLRepoData))
    (aliases : List (String × String)) (acc : String → Option (Option RepoInfo))
    {a rn : String} (hnd : (aliases.map Prod.snd).Nodup) (hmem : (a, rn) ∈ aliases) :
    (aliases.foldl
      (fun acc p =>
        match lookupAList d p.1 with
        | some rd => setResult acc p.2 (some (convertRepoData rd))
        | none => setResult acc p.2 none)
      acc) rn
      = match lookupAList d a with
        | some rd => some (some (convertRepoData rd))
        | none => some none := by
  induction aliases generalizing acc with
  | nil => simp at hmem
  | cons p rest ih =>
    have hnd' : (rest.map Prod.snd).Nodup := (List.nodup_cons.mp hnd).2
    rcases List.mem_cons.mp hmem with h1 | h1
    · subst h1
      have hnotin : rn ∉ rest.map Prod.snd := by
        simpa using (List.nodup_cons.mp hnd).1
      rw [List.foldl_cons]
      cases hl : lookupAList d a with
      | some rd =>
        rw [foldl_data_loop_not_mentioned d rest _ hnotin]
        exact setResult_self acc rn _
      | none =>
        rw [foldl_data_loop_not_mentioned d rest _ hnotin]
        exact setResult_self acc rn _
    · rw [List.foldl_cons]
      cases hl : lookupAList d p.1 with
      | some rd => exact ih _ hnd' h1
      | none => exact ih _ hnd' h1

lemma foldl_rest_loop_not_mentioned (aliases : List (String × String))
    (restInfo : String → Option RepoInfo) (acc : String → Option (Option RepoInfo))
    {rn : String} (h : rn ∉ aliases.map Prod.snd) :
    (aliases.foldl (fun acc p => setResult acc p.2 (restInfo p.2)) acc) rn = acc rn := by
  induction aliases generalizing acc with
  | nil => rfl
  | cons p rest ih =>
    have hrest : rn ∉ rest.map Prod.snd := fun hm => h (by simp [hm])
    have hne : rn ≠ p.2 := fun he => h (by simp [he])
    rw [List.foldl_cons, ih _ hrest]
    exact setResult_other acc _ hne

lemma foldl_rest_loop (aliases : List (String × String))
    (restInfo : String → Option RepoInfo) (acc : String → Option (Option RepoInfo))
    {rn : String} (hmem : rn ∈ aliases.map Prod.snd) :
    (aliases.foldl (fun acc p => setResult acc p.2 (restInfo p.2)) acc) rn
      = some (restInfo rn) := by
  induction aliases generalizing acc with
  | nil => simp at hmem
  | cons p rest ih =>
    by_cases h2 : rn ∈ rest.map Prod.snd
    · rw [List.foldl_cons]
      exact ih _ h2
    · have hp2 : p.2 = rn := by
        rcases List.mem_cons.mp hmem with h1 | h1
        · exact h1.symm
        · exact absurd h1 h2
      rw [List.foldl_cons, hp2, foldl_rest_loop_not_mentioned rest restInfo _ h2]
      exact setResult_self acc rn _

lemma foldl_batch_loop_not_mentioned (batch : List String)
    (restInfo : String → Option RepoInfo) (acc : String → Option (Option RepoInfo))
    {rn : String} (h : rn ∉ batch) :
    (batch.foldl (fun acc rn => setResult acc rn (restInfo rn)) acc) rn = acc rn := by
  induction batch generalizing acc with
  | nil => rfl
  | cons b rest ih =>
    have hrest : rn ∉ rest := fun hm => h (List.mem_cons.mpr (Or.inr hm))
    have hne : rn ≠ b := fun he => h (List.mem_cons.mpr (Or.inl he))
    rw [List.foldl_cons, ih _ hrest]
    exact setResult_other acc _ hne

lemma foldl_batch_loop (batch : List String) (restInfo : String → Option RepoInfo)
    (acc : String → Option (Option RepoInfo)) {rn : String} (hmem : rn ∈ batch) :
    (batch.foldl (fun acc rn => setResult acc rn (restInfo rn)) acc) rn
      = some (restInfo rn) := by
  induction batch generalizing acc with
  | nil => simp at hmem
  | cons b rest ih =>
    by_cases h2 : rn ∈ rest
    · rw [List.foldl_cons]
      exact ih _ h2
    · have hb : b = rn := by
        rcases List.mem_cons.mp hmem with h1 | h1
        · exact h1.symm
        · exact absurd h1 h2
      rw [List.foldl_cons, hb, foldl_batch_loop_not_mentioned rest restInfo _ h2]
      exact setResult_self acc rn _

/-- C8: partial-failure tolerance of the GraphQL batch adapter.
(1) When the response carries a non-empty `data` object, every alias whose
entry is present resolves to its repository info — whatever the `errors`
array contains, so a NOT_FOUND error for one alias never invalidates the
others; (2) an alias whose `data` entry is missing is recorded as `None`,
still without invalidating the batch; (3) when the response carries no
usable `data` at all, every alias falls back to the single-item REST
adapter; (4) when the request itself fails, every batch member falls back
to the single-item REST adapter. -/
theorem graphql_partial_failure :
    (∀ (aliases : List (String × String)) (batch : List String)
        (restInfo : String → Option RepoInfo) (r : GQLResponse)
        (d : List (String × GQLRepoData)) (a rn : String) (rd : GQLRepoData),
      (aliases.map Prod.snd).Nodup → r.payload = some d → d ≠ [] →
      (a, rn) ∈ aliases → lookupAList d a = some rd →
      process_batch_response aliases batch restInfo (some r) rn
        = some (some (convertRepoData rd)))
    ∧ (∀ (aliases : List (String × String)) (batch : List String)
        (restInfo : String → Option RepoInfo) (r : GQLResponse)
        (d : List (String × GQLRepoData)) (a rn : String),
      (aliases.map Prod.snd).Nodup → r.payload = some d → d ≠ [] →
      (a, rn) ∈ aliases → lookupAList d a = none →
      process_batch_response aliases batch restInfo (some r) rn = some none)
    ∧ (∀ (aliases : List (String × String)) (batch : List String)
        (restInfo : String → Option RepoInfo) (r : GQLResponse) (a rn : String),
      (r.payload = none ∨ r.payload = some []) → (a, rn) ∈ aliases →
      process_batch_response aliases batch restInfo (some r) rn = some (restInfo rn))
    ∧ (∀ (aliases : List (String × String)) (batch : List String)
        (restInfo : String → Option RepoInfo) (rn : String),
      rn ∈ batch →
      process_batch_response aliases batch restInfo none rn = some (restInfo rn)) := by
  refine ⟨?_, ?_, ?_, ?_⟩
  · intro aliases batch restInfo r d a rn rd hnd hp hd hmem hl
    simp only [process_batch_response, hp]
    rw [if_pos hd, foldl_data_loop_resolves d aliases _ hnd hmem, hl]
  · intro aliases batch restInfo r d a rn hnd hp hd hmem hl
    simp only [process_batch_response, hp]
    rw [if_pos hd, foldl_data_loop_resolves d aliases _ hnd hmem, hl]
  · intro aliases batch restInfo r a rn hp hmem
    have hmem2 : rn ∈ aliases.map Prod.snd := List.mem_map.mpr ⟨(a, rn), hmem, rfl⟩
    rcases hp with hp | hp
    · simp only [process_batch_response, hp]
      exact foldl_rest_loop aliases restInfo _ hmem2
    · simp only [process_batch_response, hp]
      rw [if_neg (by simp)]
      exact foldl_rest_loop aliases restInfo _ hmem2
  · intro aliases batch restInfo rn hmem
    simp only [process_batch_response]
    exact foldl_batch_loop batch restInfo _ hmem

/-- Repo data for the alias that resolves in the witness response. -/
def gqlDataX : GQLRepoData := ⟨"a/x", some "an agent framework", 42, some "Python", ["agents"]⟩

/-- The witness response: alias `repo1` hit NOT_FOUND, alias `repo0` has
data; the batch still resolves `repo0`. -/
def gqlRespPartial : GQLResponse :=
  ⟨[⟨"NOT_FOUND", some ["repo1"]⟩], some [("repo0", gqlDataX)]⟩

/-- A response whose request succeeded but returned no data object. -/
def gqlRespNoData : GQLResponse := ⟨[⟨"INTERNAL", none⟩], none⟩

/-- The REST fallback oracle for the witness. -/
def gqlRestOracle : String → Option RepoInfo :=
  fun rn => some ⟨rn, "", 1, "", []⟩

/-- C8 witness: with aliases `repo0 ↦ a/x`, `repo1 ↦ b/y`, a NOT_FOUND for
`repo1` leaves `a/x` resolved from the batch and `b/y` marked `None`; with
no data object both aliases fall back to REST, as does the raw batch on a
failed request. -/
theorem graphql_partial_failure_witness :
    process_batch_response [("repo0", "a/x"), ("repo1", "b/y")] ["a/x", "b/y"]
        gqlRestOracle (some gqlRespPartial) "a/x" = some (some (convertRepoData gqlDataX))
    ∧ process_batch_response [("repo0", "a/x"), ("repo1", "b/y")] ["a/x", "b/y"]
        gqlRestOracle (some gqlRespPartial) "b/y" = some none
    ∧ process_batch_response [("repo0", "a/x"), ("repo1", "b/y")] ["a/x", "b/y"]
        gqlRestOracle (some gqlRespNoData) "b/y" = some (gqlRestOracle "b/y")
    ∧ process_batch_response [("repo0", "a/x"), ("repo1", "b/y")] ["a/x", "b/y"]
        gqlRestOracle none "a/x" = some (gqlRestOracle "a/x") :=
  ⟨graphql_partial_failure.1 [("repo0", "a/x"), ("repo1", "b/y")] ["a/x", "b/y"]
      gqlRestOracle gqlRespPartial [("repo0", gqlDataX)] "repo0" "a/x" gqlDataX
      (by decide) rfl (by decide) (by decide) (by decide),
   graphql_partial_failure.2.1 [("repo0", "a/x"), ("repo1", "b/y")] ["a/x", "b/y"]
      gqlRestOracle gqlRespPartial [("repo0", gqlDataX)] "repo1" "b/y"
      (by decide) rfl (by decide) (by decide) (by decide),
   graphql_partial_failure.2.2.1 [("repo0", "a/x"), ("repo1", "b/y")] ["a/x", "b/y"]
      gqlRestOracle gqlRespNoData "repo1" "b/y" (Or.inl rfl) (by decide),
   graphql_partial_failure.2.2.2 [("repo0", "a/x"), ("repo1", "b/y")] ["a/x", "b/y"]
      gqlRestOracle "a/x" (by decide)⟩

/-! ## C9 — the undocumented "china" exclusion

`awesome_search.py` `search_awesome_repos` (lines 64-108),
`repo_extractor.py` `extract_repos_from_readme` (lines 147-187, the per-line
filter), and `github/main.py` (lines 116-124, the aggregate filter). -/

/-- Case-insensitive test for the substring `"china"`. -/
def containsChina (s : String) : Bool := strContains (strLower s) "china"

/-- One element of the search response's `items` array. -/
structure SearchItem where
  full_name : String
  description : Option String
  stargazers_count : Nat
  html_url : String
deriving Repr, DecidableEq

/-- The per-repo dict built by `search_awesome_repos`. -/
structure AwesomeRepo where
  name : String
  stars : Nat
  description : String
  url : String
deriving Repr, DecidableEq

/-- Models `AwesomeRepoSearcher.search_awesome_repos` on a parsed response
(`none` = failed request or missing `items`): truncate to `max_results`,
skip any item whose full name or description contains `china`
(case-insensitive), and build the result dicts in order. -/
def search_awesome_repos (maxResults : Nat) (resp : Option (List SearchItem)) :
    List AwesomeRepo :=
  match resp with
  | none => []
  | some items =>
    (items.take maxResults).filterMap
      (fun item =>
        let desc := item.description.getD ""
        if containsChina item.full_name || containsChina desc then none
        else some ⟨item.full_name, item.stargazers_count, desc, item.html_url⟩)

/-- Models the repository-collection loop at the end of
`RepoExtractor.extract_repos_from_readme` (lines 170-180): for each matched
`owner/repo` candidate of the LLM response (the regex match is the input
list), strip a trailing `.git` and keep the name only when it does not
contain `china` (case-insensitive). -/
def extract_repo_lines (candidates : List String) : List String :=
  candidates.filterMap
    (fun raw =>
      let repo := if strStartsWith ⟨raw.data.reverse⟩ ⟨".git".data.reverse⟩
        then ⟨raw.data.take (raw.data.length - 4)⟩ else raw
      if containsChina repo then none else some repo)

/-- Models the aggregate filter of `github/main.py` (lines 118-123) applied
to the collected repository names before saving. -/
def filter_china_aggregated (all_agent_repos : List String) : List String :=
  all_agent_repos.filter (fun repo => !(containsChina repo))

/-- C9: at all three stages — search results, README extraction, and the
aggregated list before saving — every surviving repository name (and, for
search results, description) is free of the substring `china`,
case-insensitively. -/
theorem china_exclusion :
    (∀ (maxResults : Nat) (resp : Option (List SearchItem)) (r : AwesomeRepo),
      r ∈ search_awesome_repos maxResults resp →
        containsChina r.name = false ∧ containsChina r.description = false)
    ∧ (∀ (candidates : List String) (repo : String),
      repo ∈ extract_repo_lines candidates → containsChina repo = false)
    ∧ (∀ (l : List String) (repo : String),
      repo ∈ filter_china_aggregated l → containsChina repo = false) := by
  refine ⟨?_, ?_, ?_⟩
  · intro maxResults resp r hr
    match resp with
    | none => simp [search_awesome_repos] at hr
    | some items =>
      unfold search_awesome_repos at hr
      obtain ⟨item, hmem, hbuild⟩ := List.mem_filterMap.mp hr
      by_cases hc : containsChina item.full_name || containsChina (item.description.getD "")
      · rw [if_pos hc] at hbuild
        cases hbuild
      · rw [if_neg hc] at hbuild
        cases hbuild
        have hfalse : (containsChina item.full_name
            || containsChina (item.description.getD "")) = false :=
          Bool.eq_false_iff.mpr hc
        rcases Bool.or_eq_false_iff.mp hfalse with ⟨h1, h2⟩
        exact ⟨h1, h2⟩
  · intro candidates repo hr
    unfold extract_repo_lines at hr
    obtain ⟨raw, hmem, hbuild⟩ := List.mem_filterMap.mp hr
    by_cases hc : containsChina (if strStartsWith ⟨raw.data.reverse⟩ ⟨".git".data.reverse⟩
        then (⟨raw.data.take (raw.data.length - 4)⟩ : String) else raw)
    · rw [if_pos hc] at hbuild
      cases hbuild
    · rw [if_neg hc] at hbuild
      cases hbuild
      exact Bool.of_not_eq_true hc
  · intro l repo hr
    have := List.of_mem_filter hr
    simpa using this

/-- A clean search item surviving all filters. -/
def cleanItem : SearchItem := ⟨"octo/awesome-agents", some "curated agent list", 99, "u"⟩

/-- C9 witness: the theorem applied to a concrete search response containing
a filtered-out item and a surviving one, a concrete candidate list, and a
concrete aggregate list. -/
theorem china_exclusion_witness :
    (containsChina (⟨"octo/awesome-agents", 99, "curated agent list", "u"⟩ : AwesomeRepo).name
        = false
      ∧ containsChina
          (⟨"octo/awesome-agents", 99, "curated agent list", "u"⟩ : AwesomeRepo).description
        = false)
    ∧ containsChina "octo/agent-kit" = false
    ∧ containsChina "octo/agents" = false :=
  ⟨china_exclusion.1 10
      (some [⟨"octo/awesome-China-agents", some "list", 5, "v"⟩, cleanItem])
      ⟨"octo/awesome-agents", 99, "curated agent list", "u"⟩ (by decide),
   china_exclusion.2.1 ["octo/agent-kit.git", "octo/china-agents"] "octo/agent-kit" (by decide),
   china_exclusion.2.2 ["octo/agents", "octo/ChinaBot"] "octo/agents" (by decide)⟩

/-! ## C4 — predicate order of the repository resolver

`agent_filter.py` `AgentRepoFilter.filter_repos` (lines 101-204). The stages
are: batch info fetch, star filtering (Step 2), keyword filtering with
README fallback (Step 3), AI deep filtering (Step 4, modelled with
`use_ai = True`, the configuration the claim concerns). To reason about the
order in which the checks run, every check emits an event; the trace lists
events in execution order. Step 3 runs repos in a worker pool, so the
relative order of different repos' keyword events is nondeterministic, but
all of them happen after every Step-2 star check and before every Step-4 AI
call, which is what the trace captures. -/

/-- One observable check of `filter_repos`, with the repo it concerns. -/
inductive FEvent where
  | starCheck (name : String) (passed : Bool)
  | kwNameDesc (name : String) (passed : Bool)
  | readmeFetch (name : String)
  | kwReadme (name : String) (passed : Bool)
  | aiCall (name : String) (accepted : Bool)
deriving Repr, DecidableEq

/-- A star-passed candidate (`{'name':…, 'description':…, 'stars':…}`). -/
structure StarPassed where
  name : String
  description : String
  stars : Nat
deriving Repr, DecidableEq

/-- An AI-accepted result (`{'name':…, 'stars':…}`). -/
structure AcceptedRepo where
  name : String
  stars : Nat
deriving Repr, DecidableEq

/-- Models `AgentRepoFilter.keyword_filter` (lines 35-54): lower-case the
concatenated name/description/README text and accept iff any (already
lower-cased) keyword occurs in it. -/
def keyword_filter (kws : List String) (repoName repoDesc repoReadme : String) : Bool :=
  let text := strLower (repoName ++ " " ++ repoDesc ++ " " ++ repoReadme)
  kws.any (fun kw => strContains text kw)

/-- Step 2 survivors (lines 121-134): candidates with batch info present and
at least `minStars` stars. -/
def star_passed (batch : String → Option RepoInfo) (minStars : Nat) :
    List String → List StarPassed
  | [] => []
  | rn :: rest =>
    match batch rn with
    | some info =>
      if minStars ≤ info.stars then
        ⟨rn, info.description, info.stars⟩ :: star_passed batch minStars rest
      else star_passed batch minStars rest
    | none => star_passed batch minStars rest

/-- Step 2 events: one star check per input candidate. -/
def star_trace (batch : String → Option RepoInfo) (minStars : Nat) :
    List String → List FEvent
  | [] => []
  | rn :: rest =>
    (match batch rn with
     | some info => FEvent.starCheck rn (decide (minStars ≤ info.stars))
     | none => FEvent.starCheck rn false) :: star_trace batch minStars rest

/-- Models `check_repo_keywords` (lines 146-160): quick keyword check on
name/description; only if it fails, fetch the README and re-check with it
(`if readme_content and self.keyword_filter(...)`). Returns the verdict and
the events this repo generated. -/
def check_repo_keywords (kws : List String) (getReadme : String → Option String)
    (sp : StarPassed) : Bool × List FEvent :=
  if keyword_filter kws sp.name sp.description "" then
    (true, [.kwNameDesc sp.name true])
  else
    match getReadme sp.name with
    | some content =>
      if content != "" then
        if keyword_filter kws sp.name sp.description content then
          (true, [.kwNameDesc sp.name false, .readmeFetch sp.name, .kwReadme sp.name true])
        else
          (false, [.kwNameDesc sp.name false, .readmeFetch sp.name, .kwReadme sp.name false])
      else (false, [.kwNameDesc sp.name false, .readmeFetch sp.name])
    | none => (false, [.kwNameDesc sp.name false, .readmeFetch sp.name])

/-- Step 3 survivors. -/
def keyword_passed (kws : List String) (getReadme : String → Option String) :
    List StarPassed → List StarPassed
  | [] => []
  | sp :: rest =>
    if (check_repo_keywords kws getReadme sp).1 then
      sp :: keyword_passed kws getReadme rest
    else keyword_passed kws getReadme rest

/-- Step 3 events. -/
def keyword_trace (kws : List String) (getReadme : String → Option String) :
    List StarPassed → List FEvent
  | [] => []
  | sp :: rest => (check_repo_keywords kws getReadme sp).2 ++ keyword_trace kws getReadme rest

/-- Step 4 survivors (lines 183-204): one `ai_filter` call per keyword
survivor, keeping `{'name', 'stars'}` of the accepted ones. -/
def ai_passed (aiResp : String → String → Option String) :
    List StarPassed → List AcceptedRepo
  | [] => []
  | sp :: rest =>
    if ai_filter true (aiResp sp.name sp.description) then
      ⟨sp.name, sp.stars⟩ :: ai_passed aiResp rest
    else ai_passed aiResp rest

/-- Step 4 events. -/
def ai_trace (aiResp : String → String → Option String) : List StarPassed → List FEvent
  | [] => []
  | sp :: rest =>
    FEvent.aiCall sp.name (ai_filter true (aiResp sp.name sp.description))
      :: ai_trace aiResp rest

/-- Models `AgentRepoFilter.filter_repos` with `use_ai = True`: keywords are
lower-cased at init; Step 2's star filter runs over all candidates; if no
candidate survives it, the function returns early; otherwise Step 3's
keyword filter runs over the star survivors and Step 4's AI filter over the
keyword survivors. Returns the accepted repos and the event trace. -/
def filter_repos (keywords : List String) (batch : String → Option RepoInfo)
    (getReadme : String → Option String) (aiResp : String → String → Option String)
    (minStars : Nat) (repoNames : List String) : List AcceptedRepo × List FEvent :=
  let kws := keywords.map strLower
  let sp := star_passed batch minStars repoNames
  let t2 := star_trace batch minStars repoNames
  if sp.isEmpty then ([], t2)
  else
    let kp := keyword_passed kws getReadme sp
    (ai_passed aiResp kp, t2 ++ keyword_trace kws getReadme sp ++ ai_trace aiResp kp)

/-- Written from the claim's words (the spec side of the comparison): in the
trace, a keyword check on name/description for `name` happens before any
star check for `name`. -/
def specKwBeforeStarAux (name : String) (seenKw : Bool) : List FEvent → Bool
  | [] => true
  | FEvent.kwNameDesc n _ :: rest => specKwBeforeStarAux name (seenKw || (n == name)) rest
  | FEvent.starCheck n _ :: rest =>
    if n == name then seenKw && specKwBeforeStarAux name seenKw rest
    else specKwBeforeStarAux name seenKw rest
  | _ :: rest => specKwBeforeStarAux name seenKw rest

/-- The claim's ordering property for one candidate, as a trace predicate. -/
def spec_keyword_precedes_star (name : String) (trace : List FEvent) : Bool :=
  specKwBeforeStarAux name false trace

/-- Scenario 4's batch info: `foo/bar`, description "An LLM agent
framework", 5 stars. -/
def c4Batch : String → Option RepoInfo :=
  fun rn => if rn = "foo/bar" then some ⟨"foo/bar", "An LLM agent framework", 5, "Python", []⟩
    else none

/-- C4 counterexample: with `min_stars = 10` the trace of `filter_repos` on
`foo/bar` is a single failed star check with no keyword check at all — the
star threshold runs first, so the claimed keyword-before-stars order is
violated. -/
theorem star_before_keyword_counterexample :
    (filter_repos ["agent"] c4Batch (fun _ => none) (fun _ _ => none) 10 ["foo/bar"]).2
      = [FEvent.starCheck "foo/bar" false]
    ∧ spec_keyword_precedes_star "foo/bar"
        (filter_repos ["agent"] c4Batch (fun _ => none) (fun _ _ => none) 10 ["foo/bar"]).2
      = false := by
  constructor <;> decide

lemma star_trace_shape (batch : String → Option RepoInfo) (minStars : Nat) :
    ∀ (rns : List String) (e : FEvent), e ∈ star_trace batch minStars rns →
      ∃ nm b, e = FEvent.starCheck nm b := by
  intro rns
  induction rns with
  | nil => intro e he; simp [star_trace] at he
  | cons rn rest ih =>
    intro e he
    unfold star_trace at he
    rcases List.mem_cons.mp he with h | h
    · cases hb : batch rn with
      | some info =>
        rw [hb] at h
        exact ⟨rn, _, h⟩
      | none =>
        rw [hb] at h
        exact ⟨rn, false, h⟩
    · exact ih e h

lemma star_passed_in_trace (batch : String → Option RepoInfo) (minStars : Nat) :
    ∀ (rns : List String) (p : StarPassed), p ∈ star_passed batch minStars rns →
      FEvent.starCheck p.name true ∈ star_trace batch minStars rns := by
  intro rns
  induction rns with
  | nil => intro p hp; simp [star_passed] at hp
  | cons rn rest ih =>
    intro p hp
    cases hb : batch rn with
    | some info =>
      simp only [star_passed, hb] at hp
      simp only [star_trace, hb]
      by_cases hs : minStars ≤ info.stars
      · rw [if_pos hs] at hp
        rcases List.mem_cons.mp hp with h | h
        · subst h
          exact List.mem_cons.mpr (Or.inl (by rw [decide_eq_true hs]))
        · exact List.mem_cons.mpr (Or.inr (ih p h))
      · rw [if_neg hs] at hp
        exact List.mem_cons.mpr (Or.inr (ih p hp))
    | none =>
      simp only [star_passed, hb] at hp
      simp only [star_trace, hb]
      exact List.mem_cons.mpr (Or.inr (ih p hp))

lemma crk_quick {kws : List String} {getReadme : String → Option String} {sp : StarPassed}
    (h1 : keyword_filter kws sp.name sp.description "" = true) :
    check_repo_keywords kws getReadme sp = (true, [.kwNameDesc sp.name true]) := by
  unfold check_repo_keywords
  rw [if_pos h1]

lemma crk_none {kws : List String} {getReadme : String → Option String} {sp : StarPassed}
    (h1 : ¬ keyword_filter kws sp.name sp.description "" = true)
    (hg : getReadme sp.name = none) :
    check_repo_keywords kws getReadme sp
      = (false, [.kwNameDesc sp.name false, .readmeFetch sp.name]) := by
  simp only [check_repo_keywords, hg]
  rw [if_neg h1]

lemma crk_empty {kws : List String} {getReadme : String → Option String} {sp : StarPassed}
    {content : String} (h1 : ¬ keyword_filter kws sp.name sp.description "" = true)
    (hg : getReadme sp.name = some content) (h2 : ¬ (content != "") = true) :
    check_repo_keywords kws getReadme sp
      = (false, [.kwNameDesc sp.name false, .readmeFetch sp.name]) := by
  simp only [check_repo_keywords, hg]
  rw [if_neg h1, if_neg h2]

lemma crk_readme_hit {kws : List String} {getReadme : String → Option String} {sp : StarPassed}
    {content : String} (h1 : ¬ keyword_filter kws sp.name sp.description "" = true)
    (hg : getReadme sp.name = some content) (h2 : (content != "") = true)
    (h3 : keyword_filter kws sp.name sp.description content = true) :
    check_repo_keywords kws getReadme sp
      = (true, [.kwNameDesc sp.name false, .readmeFetch sp.name, .kwReadme sp.name true]) := by
  simp only [check_repo_keywords, hg]
  rw [if_neg h1, if_pos h2, if_pos h3]

lemma crk_readme_miss {kws : List String} {getReadme : String → Option String} {sp : StarPassed}
    {content : String} (h1 : ¬ keyword_filter kws sp.name sp.description "" = true)
    (hg : getReadme sp.name = some content) (h2 : (content != "") = true)
    (h3 : ¬ keyword_filter kws sp.name sp.description content = true) :
    check_repo_keywords kws getReadme sp
      = (false, [.kwNameDesc sp.name false, .readmeFetch sp.name, .kwReadme sp.name false]) := by
  simp only [check_repo_keywords, hg]
  rw [if_neg h1, if_pos h2, if_neg h3]

lemma check_repo_keywords_events (kws : List String) (getReadme : String → Option String)
    (sp : StarPassed) :
    (∀ e ∈ (check_repo_keywords kws getReadme sp).2,
        (∃ b, e = FEvent.kwNameDesc sp.name b) ∨ e = FEvent.readmeFetch sp.name
          ∨ ∃ b, e = FEvent.kwReadme sp.name b)
    ∧ (FEvent.readmeFetch sp.name ∈ (check_repo_keywords kws getReadme sp).2 →
        FEvent.kwNameDesc sp.name false ∈ (check_repo_keywords kws getReadme sp).2)
    ∧ ((check_repo_keywords kws getReadme sp).1 = true →
        FEvent.kwNameDesc sp.name true ∈ (check_repo_keywords kws getReadme sp).2
        ∨ FEvent.kwReadme sp.name true ∈ (check_repo_keywords kws getReadme sp).2) := by
  have shortEvents : ∀ e ∈ [FEvent.kwNameDesc sp.name false, FEvent.readmeFetch sp.name],
      (∃ b, e = FEvent.kwNameDesc sp.name b) ∨ e = FEvent.readmeFetch sp.name
        ∨ ∃ b, e = FEvent.kwReadme sp.name b := by
    intro e he
    rcases List.mem_cons.mp he with h | h
    · exact Or.inl ⟨false, h⟩
    · rw [List.mem_singleton] at h
      exact Or.inr (Or.inl h)
  have longEvents : ∀ b0, ∀ e ∈ [FEvent.kwNameDesc sp.name false, FEvent.readmeFetch sp.name,
        FEvent.kwReadme sp.name b0],
      (∃ b, e = FEvent.kwNameDesc sp.name b) ∨ e = FEvent.readmeFetch sp.name
        ∨ ∃ b, e = FEvent.kwReadme sp.name b := by
    intro b0 e he
    rcases List.mem_cons.mp he with h | h
    · exact Or.inl ⟨false, h⟩
    · rcases List.mem_cons.mp h with h2 | h2
      · exact Or.inr (Or.inl h2)
      · rw [List.mem_singleton] at h2
        exact Or.inr (Or.inr ⟨b0, h2⟩)
  by_cases h1 : keyword_filter kws sp.name sp.description "" = true
  · rw [crk_quick h1]
    refine ⟨?_, ?_, ?_⟩
    · intro e he
      rw [List.mem_singleton] at he
      exact Or.inl ⟨true, he⟩
    · intro h
      rw [List.mem_singleton] at h
      exact absurd h (by simp)
    · intro _
      exact Or.inl (List.mem_singleton.mpr rfl)
  · cases hg : getReadme sp.name with
    | none =>
      rw [crk_none h1 hg]
      exact ⟨shortEvents, fun _ => List.mem_cons.mpr (Or.inl rfl),
        fun hres => absurd hres (by simp)⟩
    | some content =>
      by_cases h2 : (content != "") = true
      · by_cases h3 : keyword_filter kws sp.name sp.description content = true
        · rw [crk_readme_hit h1 hg h2 h3]
          refine ⟨longEvents true, fun _ => List.mem_cons.mpr (Or.inl rfl), ?_⟩
          intro _
          exact Or.inr (List.mem_cons.mpr (Or.inr (List.mem_cons.mpr (Or.inr
            (List.mem_singleton.mpr rfl)))))
        · rw [crk_readme_miss h1 hg h2 h3]
          exact ⟨longEvents false, fun _ => List.mem_cons.mpr (Or.inl rfl),
            fun hres => absurd hres (by simp)⟩
      · rw [crk_empty h1 hg h2]
        exact ⟨shortEvents, fun _ => List.mem_cons.mpr (Or.inl rfl),
          fun hres => absurd hres (by simp)⟩

lemma keyword_trace_shape (kws : List String) (getReadme : String → Option String) :
    ∀ (sps : List StarPassed) (e : FEvent), e ∈ keyword_trace kws getReadme sps →
      (∃ nm b, e = FEvent.kwNameDesc nm b) ∨ (∃ nm, e = FEvent.readmeFetch nm)
        ∨ ∃ nm b, e = FEvent.kwReadme nm b := by
  intro sps
  induction sps with
  | nil => intro e he; simp [keyword_trace] at he
  | cons sp rest ih =>
    intro e he
    unfold keyword_trace at he
    rcases List.mem_append.mp he with h | h
    · rcases (check_repo_keywords_events kws getReadme sp).1 e h with h' | h' | h'
      · exact Or.inl ⟨sp.name, h'⟩
      · exact Or.inr (Or.inl ⟨sp.name, h'⟩)
      · exact Or.inr (Or.inr ⟨sp.name, h'⟩)
    · exact ih e h

lemma keyword_trace_names (kws : List String) (getReadme : String → Option String) :
    ∀ (sps : List StarPassed) (nm : String) (b : Bool),
      FEvent.kwNameDesc nm b ∈ keyword_trace kws getReadme sps →
      ∃ p ∈ sps, p.name = nm := by
  intro sps
  induction sps with
  | nil => intro nm b h; simp [keyword_trace] at h
  | cons sp rest ih =>
    intro nm b h
    unfold keyword_trace at h
    rcases List.mem_append.mp h with h1 | h1
    · rcases (check_repo_keywords_events kws getReadme sp).1 _ h1 with h' | h' | h'
      · obtain ⟨b', hb'⟩ := h'
        cases hb'
        exact ⟨sp, List.mem_cons.mpr (Or.inl rfl), rfl⟩
      · exact absurd h' (by simp)
      · obtain ⟨b', hb'⟩ := h'
        exact absurd hb' (by simp)
    · obtain ⟨p, hp, hpn⟩ := ih nm b h1
      exact ⟨p, List.mem_cons.mpr (Or.inr hp), hpn⟩

lemma keyword_trace_readme (kws : List String) (getReadme : String → Option String) :
    ∀ (sps : List StarPassed) (nm : String),
      FEvent.readmeFetch nm ∈ keyword_trace kws getReadme sps →
      FEvent.kwNameDesc nm false ∈ keyword_trace kws getReadme sps := by
  intro sps
  induction sps with
  | nil => intro nm h; simp [keyword_trace] at h
  | cons sp rest ih =>
    intro nm h
    unfold keyword_trace at h ⊢
    rcases List.mem_append.mp h with h1 | h1
    · have hnm : nm = sp.name := by
        rcases (check_repo_keywords_events kws getReadme sp).1 _ h1 with h' | h' | h'
        · obtain ⟨b', hb'⟩ := h'
          exact absurd hb' (by simp)
        · exact FEvent.readmeFetch.inj h'
        · obtain ⟨b', hb'⟩ := h'
          exact absurd hb' (by simp)
      subst hnm
      exact List.mem_append.mpr
        (Or.inl ((check_repo_keywords_events kws getReadme sp).2.1 h1))
    · exact List.mem_append.mpr (Or.inr (ih nm h1))

lemma keyword_passed_evidence (kws : List String) (getReadme : String → Option String) :
    ∀ (sps : List StarPassed) (p : StarPassed), p ∈ keyword_passed kws getReadme sps →
      FEvent.kwNameDesc p.name true ∈ keyword_trace kws getReadme sps
      ∨ FEvent.kwReadme p.name true ∈ keyword_trace kws getReadme sps := by
  intro sps
  induction sps with
  | nil => intro p hp; simp [keyword_passed] at hp
  | cons sp rest ih =>
    intro p hp
    unfold keyword_passed at hp
    unfold keyword_trace
    by_cases hres : (check_repo_keywords kws getReadme sp).1 = true
    · rw [if_pos hres] at hp
      rcases List.mem_cons.mp hp with h | h
      · subst h
        rcases (check_repo_keywords_events kws getReadme p).2.2 hres with h' | h'
        · exact Or.inl (List.mem_append.mpr (Or.inl h'))
        · exact Or.inr (List.mem_append.mpr (Or.inl h'))
      · rcases ih p h with h' | h'
        · exact Or.inl (List.mem_append.mpr (Or.inr h'))
        · exact Or.inr (List.mem_append.mpr (Or.inr h'))
    · rw [if_neg hres] at hp
      rcases ih p hp with h' | h'
      · exact Or.inl (List.mem_append.mpr (Or.inr h'))
      · exact Or.inr (List.mem_append.mpr (Or.inr h'))

lemma ai_trace_shape (aiResp : String → String → Option String) :
    ∀ (kp : List StarPassed) (e : FEvent), e ∈ ai_trace aiResp kp →
      ∃ nm b, e = FEvent.aiCall nm b := by
  intro kp
  induction kp with
  | nil => intro e he; simp [ai_trace] at he
  | cons sp rest ih =>
    intro e he
    unfold ai_trace at he
    rcases List.mem_cons.mp he with h | h
    · exact ⟨sp.name, _, h⟩
    · exact ih e h

lemma ai_trace_names (aiResp : String → String → Option String) :
    ∀ (kp : List StarPassed) (nm : String) (b : Bool),
      FEvent.aiCall nm b ∈ ai_trace aiResp kp → ∃ p ∈ kp, p.name = nm := by
  intro kp
  induction kp with
  | nil => intro nm b h; simp [ai_trace] at h
  | cons sp rest ih =>
    intro nm b h
    unfold ai_trace at h
    rcases List.mem_cons.mp h with h1 | h1
    · injection h1 with he _
      exact ⟨sp, List.mem_cons.mpr (Or.inl rfl), he.symm⟩
    · obtain ⟨p, hp, hpn⟩ := ih nm b h1
      exact ⟨p, List.mem_cons.mpr (Or.inr hp), hpn⟩

/-- C4 amended: in `filter_repos` the star threshold runs first, not the
keyword check. Precisely: (1) a name/description keyword check happens only
for repos that already passed the star check (whose passing star check is in
the trace); (2) a README fetch happens only after the name/description
keyword check failed for that repo; (3) an AI call happens only for repos
with a passed keyword check (on name/description or README) — the AI gate is
a separate later stage, never inside the star/keyword chain; (4) the trace
is exactly star-stage events, then keyword-stage events, then AI-stage
events. -/
theorem filter_repos_stage_order (keywords : List String)
    (batch : String → Option RepoInfo) (getReadme : String → Option String)
    (aiResp : String → String → Option String) (minStars : Nat) (repoNames : List String)
    (acc : List AcceptedRepo) (tr : List FEvent)
    (hfr : filter_repos keywords batch getReadme aiResp minStars repoNames = (acc, tr)) :
    (∀ nm b, FEvent.kwNameDesc nm b ∈ tr → FEvent.starCheck nm true ∈ tr)
    ∧ (∀ nm, FEvent.readmeFetch nm ∈ tr → FEvent.kwNameDesc nm false ∈ tr)
    ∧ (∀ nm b, FEvent.aiCall nm b ∈ tr →
        FEvent.kwNameDesc nm true ∈ tr ∨ FEvent.kwReadme nm true ∈ tr)
    ∧ ∃ t2 t3 t4, tr = t2 ++ t3 ++ t4
        ∧ (∀ e ∈ t2, ∃ nm b, e = FEvent.starCheck nm b)
        ∧ (∀ e ∈ t3, (∃ nm b, e = FEvent.kwNameDesc nm b)
            ∨ (∃ nm, e = FEvent.readmeFetch nm) ∨ ∃ nm b, e = FEvent.kwReadme nm b)
        ∧ (∀ e ∈ t4, ∃ nm b, e = FEvent.aiCall nm b) := by
  simp only [filter_repos] at hfr
  by_cases hsp : (star_passed batch minStars repoNames).isEmpty = true
  · rw [if_pos hsp] at hfr
    have htr : tr = star_trace batch minStars repoNames := ((Prod.mk.injEq _ _ _ _).mp hfr).2.symm
    subst htr
    refine ⟨?_, ?_, ?_, star_trace batch minStars repoNames, [], [], ?_, ?_, ?_, ?_⟩
    · intro nm b h
      obtain ⟨nm', b', he⟩ := star_trace_shape batch minStars repoNames _ h
      exact FEvent.noConfusion he
    · intro nm h
      obtain ⟨nm', b', he⟩ := star_trace_shape batch minStars repoNames _ h
      exact FEvent.noConfusion he
    · intro nm b h
      obtain ⟨nm', b', he⟩ := star_trace_shape batch minStars repoNames _ h
      exact FEvent.noConfusion he
    · rw [List.append_nil, List.append_nil]
    · exact star_trace_shape batch minStars repoNames
    · intro e he
      exact absurd he (List.not_mem_nil e)
    · intro e he
      exact absurd he (List.not_mem_nil e)
  · rw [if_neg hsp] at hfr
    have htr : tr = star_trace batch minStars repoNames
        ++ keyword_trace (keywords.map strLower) getReadme (star_passed batch minStars repoNames)
        ++ ai_trace aiResp (keyword_passed (keywords.map strLower) getReadme
            (star_passed batch minStars repoNames)) :=
      ((Prod.mk.injEq _ _ _ _).mp hfr).2.symm
    subst htr
    refine ⟨?_, ?_, ?_, _, _, _, rfl, star_trace_shape batch minStars repoNames,
      keyword_trace_shape _ getReadme _, ai_trace_shape aiResp _⟩
    · intro nm b h
      rcases List.mem_append.mp h with h1 | h1
      · rcases List.mem_append.mp h1 with h2 | h2
        · obtain ⟨nm', b', he⟩ := star_trace_shape batch minStars repoNames _ h2
          exact FEvent.noConfusion he
        · obtain ⟨p, hp, hpn⟩ := keyword_trace_names _ getReadme _ nm b h2
          subst hpn
          exact List.mem_append.mpr (Or.inl (List.mem_append.mpr
            (Or.inl (star_passed_in_trace batch minStars repoNames p hp))))
      · obtain ⟨nm', b', he⟩ := ai_trace_shape aiResp _ _ h1
        exact FEvent.noConfusion he
    · intro nm h
      rcases List.mem_append.mp h with h1 | h1
      · rcases List.mem_append.mp h1 with h2 | h2
        · obtain ⟨nm', b', he⟩ := star_trace_shape batch minStars repoNames _ h2
          exact FEvent.noConfusion he
        · exact List.mem_append.mpr (Or.inl (List.mem_append.mpr (Or.inr
            (keyword_trace_readme _ getReadme _ nm h2))))
      · obtain ⟨nm', b', he⟩ := ai_trace_shape aiResp _ _ h1
        exact FEvent.noConfusion he
    · intro nm b h
      rcases List.mem_append.mp h with h1 | h1
      · rcases List.mem_append.mp h1 with h2 | h2
        · obtain ⟨nm', b', he⟩ := star_trace_shape batch minStars repoNames _ h2
          exact FEvent.noConfusion he
        · rcases keyword_trace_shape _ getReadme _ _ h2 with h' | h' | h'
          · obtain ⟨nm', b', he⟩ := h'
            exact FEvent.noConfusion he
          · obtain ⟨nm', he⟩ := h'
            exact FEvent.noConfusion he
          · obtain ⟨nm', b', he⟩ := h'
            exact FEvent.noConfusion he
      · obtain ⟨p, hp, hpn⟩ := ai_trace_names aiResp _ nm b h1
        subst hpn
        rcases keyword_passed_evidence _ getReadme _ p hp with h' | h'
        · exact Or.inl (List.mem_append.mpr (Or.inl (List.mem_append.mpr (Or.inr h'))))
        · exact Or.inr (List.mem_append.mpr (Or.inl (List.mem_append.mpr (Or.inr h'))))

/-- Batch info for the amended-theorem witness: `foo/bar` with 50 stars. -/
def c4BatchRich : String → Option RepoInfo :=
  fun rn => if rn = "foo/bar" then some ⟨"foo/bar", "An LLM agent framework", 50, "Python", []⟩
    else none

/-- The trace of `filter_repos` on the witness input. -/
def c4Trace : List FEvent :=
  [.starCheck "foo/bar" true, .kwNameDesc "foo/bar" true, .aiCall "foo/bar" true]

/-- C4 amended witness: on a candidate that survives every stage, the
theorem instantiates to concrete memberships of the concrete trace. -/
theorem filter_repos_stage_order_witness :
    FEvent.starCheck "foo/bar" true ∈ c4Trace
    ∧ (FEvent.kwNameDesc "foo/bar" true ∈ c4Trace ∨ FEvent.kwReadme "foo/bar" true ∈ c4Trace) :=
  ⟨(filter_repos_stage_order ["Agent"] c4BatchRich (fun _ => none) (fun _ _ => some "YES")
      10 ["foo/bar"] [⟨"foo/bar", 50⟩] c4Trace (by decide)).1 "foo/bar" true (by decide),
   (filter_repos_stage_order ["Agent"] c4BatchRich (fun _ => none) (fun _ _ => some "YES")
      10 ["foo/bar"] [⟨"foo/bar", 50⟩] c4Trace (by decide)).2.2.1 "foo/bar" true (by decide)⟩
